import Mathlib

/-!
Verification of the dependency-aware export/import engine of the frodo-lib
policy and OAuth2-client operations (src/ops/PolicyOps.ts and
src/ops/OAuth2ClientOps.ts), as a shallow embedding in Lean 4.

JavaScript objects iterated with Object.keys are modelled as association
lists (List (String × _)) preserving insertion order; absent fields are
Option; the remote store and its outcomes are an explicit environment; each
remote call emits an Event so that ordering claims are statements about the
emitted trace.
-/

set_option autoImplicit false

namespace Frodo

/-! ## Condition trees (PoliciesApi.PolicyCondition)

A policy condition node carries an optional `type` tag, an optional single
nested `condition`, an optional `conditions` array and an optional
`scriptId`, matching the untyped JSON the source walks. -/

inductive PolicyCondition : Type where
  | mk (type : Option String) (condition : Option PolicyCondition)
       (conditions : Option (List PolicyCondition)) (scriptId : Option String)

/-- Iteration of `new Set(xs)`: keep each element the first time it is
seen, tracking the already-seen elements. -/
def jsSetDedupAux {α : Type} [DecidableEq α] : List α → List α → List α
  | _, [] => []
  | seen, x :: xs =>
    if x ∈ seen then jsSetDedupAux seen xs
    else x :: jsSetDedupAux (x :: seen) xs

/-- `[...new Set(xs)]` in JavaScript: drop duplicates keeping the first
occurrence of each element. -/
def jsSetDedup {α : Type} [DecidableEq α] (l : List α) : List α :=
  jsSetDedupAux [] l

theorem jsSetDedupAux_mem {α : Type} [DecidableEq α] (a : α) (l : List α) :
    ∀ seen : List α, a ∈ jsSetDedupAux seen l ↔ a ∈ l ∧ a ∉ seen := by
  induction l with
  | nil => intro seen; simp [jsSetDedupAux]
  | cons x xs ih =>
    intro seen
    simp only [jsSetDedupAux]
    by_cases hx : x ∈ seen
    · rw [if_pos hx, ih seen]
      constructor
      · rintro ⟨h1, h2⟩
        exact ⟨List.mem_cons_of_mem _ h1, h2⟩
      · rintro ⟨h1, h2⟩
        rcases List.mem_cons.mp h1 with h1 | h1
        · subst h1; exact absurd hx h2
        · exact ⟨h1, h2⟩
    · rw [if_neg hx]
      simp only [List.mem_cons, ih (x :: seen), List.mem_cons]
      by_cases hax : a = x
      · subst hax; simp [hx]
      · simp [hax]

theorem jsSetDedup_mem {α : Type} [DecidableEq α] (l : List α) (a : α) :
    a ∈ jsSetDedup l ↔ a ∈ l := by
  rw [jsSetDedup, jsSetDedupAux_mem]
  simp

theorem jsSetDedupAux_nodup {α : Type} [DecidableEq α] (l : List α) :
    ∀ seen : List α, (jsSetDedupAux seen l).Nodup := by
  induction l with
  | nil => intro seen; simp [jsSetDedupAux]
  | cons x xs ih =>
    intro seen
    simp only [jsSetDedupAux]
    by_cases hx : x ∈ seen
    · rw [if_pos hx]; exact ih seen
    · rw [if_neg hx]
      refine List.nodup_cons.mpr ⟨?_, ih _⟩
      intro hmem
      have := (jsSetDedupAux_mem x xs _).mp hmem
      exact this.2 (List.mem_cons_self x seen)

theorem jsSetDedup_nodup {α : Type} [DecidableEq α] (l : List α) :
    (jsSetDedup l).Nodup :=
  jsSetDedupAux_nodup l []

theorem jsSetDedup_toFinset {α : Type} [DecidableEq α] (l : List α) :
    (jsSetDedup l).toFinset = l.toFinset := by
  ext a
  simp [List.mem_toFinset, jsSetDedup_mem]

mutual

/-- `PolicyOps.findScriptUuids` on a non-null condition node: recurse into
`condition` and `conditions` under the AND/OR/NOT combinators, emit
`scriptId` for a Script node, nothing for any other type, and de-duplicate
the collected list before returning (`[...new Set(scriptUuids)]`). -/
def findScriptUuidsSome : PolicyCondition → List (Option String)
  | .mk type cond conds scriptId =>
    jsSetDedup
      (if type = some "AND" ∨ type = some "OR" ∨ type = some "NOT" then
        (match cond with
          | some c => findScriptUuidsSome c
          | none => []) ++
        (match conds with
          | some l => findScriptUuidsList l
          | none => [])
      else if type = some "Script" then [scriptId]
      else [])

/-- The `for (const cond of condition.conditions)` loop of
`findScriptUuids`: collect over each entry of the array in order. -/
def findScriptUuidsList : List PolicyCondition → List (Option String)
  | [] => []
  | c :: rest => findScriptUuidsSome c ++ findScriptUuidsList rest

end

/-- `PolicyOps.findScriptUuids`: the source takes a possibly-null condition
and returns `[]` for null before inspecting the node. -/
def findScriptUuids : Option PolicyCondition → List (Option String)
  | none => []
  | some c => findScriptUuidsSome c

mutual

/-- The set of `scriptId` values of the Script-type leaves reachable through
the AND/OR/NOT combinators, written after the words of the spec
(ReferenceWalker contract, spec §4.1): combinators contribute the union of
their children, Script leaves contribute their id, other types contribute
nothing. -/
def specScriptLeafIds : PolicyCondition → Finset (Option String)
  | .mk type cond conds scriptId =>
    if type = some "AND" ∨ type = some "OR" ∨ type = some "NOT" then
      (match cond with
        | some c => specScriptLeafIds c
        | none => ∅) ∪
      (match conds with
        | some l => specScriptLeafIdsList l
        | none => ∅)
    else if type = some "Script" then {scriptId}
    else ∅

/-- Union of the leaf sets of a list of condition nodes. -/
def specScriptLeafIdsList : List PolicyCondition → Finset (Option String)
  | [] => ∅
  | c :: rest => specScriptLeafIds c ∪ specScriptLeafIdsList rest

end

/-- Spec-side leaf set for a possibly-null condition: null has no leaves. -/
def specScriptLeafIdsOpt : Option PolicyCondition → Finset (Option String)
  | none => ∅
  | some c => specScriptLeafIds c

theorem findScriptUuidsSome_mk (type : Option String) (cond : Option PolicyCondition)
    (conds : Option (List PolicyCondition)) (scriptId : Option String) :
    findScriptUuidsSome (.mk type cond conds scriptId) =
    jsSetDedup
      (if type = some "AND" ∨ type = some "OR" ∨ type = some "NOT" then
        (match cond with
          | some c => findScriptUuidsSome c
          | none => []) ++
        (match conds with
          | some l => findScriptUuidsList l
          | none => [])
      else if type = some "Script" then [scriptId]
      else []) := by
  rw [findScriptUuidsSome.eq_def]

theorem specScriptLeafIds_mk (type : Option String) (cond : Option PolicyCondition)
    (conds : Option (List PolicyCondition)) (scriptId : Option String) :
    specScriptLeafIds (.mk type cond conds scriptId) =
    (if type = some "AND" ∨ type = some "OR" ∨ type = some "NOT" then
      (match cond with
        | some c => specScriptLeafIds c
        | none => ∅) ∪
      (match conds with
        | some l => specScriptLeafIdsList l
        | none => ∅)
    else if type = some "Script" then {scriptId}
    else ∅) := by
  rw [specScriptLeafIds.eq_def]

theorem findScriptUuids_both (n : Nat) :
    (∀ c : PolicyCondition, sizeOf c ≤ n →
      (findScriptUuidsSome c).toFinset = specScriptLeafIds c) ∧
    (∀ l : List PolicyCondition, sizeOf l ≤ n →
      (findScriptUuidsList l).toFinset = specScriptLeafIdsList l) := by
  induction n using Nat.strong_induction_on with
  | _ n ih =>
    constructor
    · intro c hc
      cases c with
      | mk type cond conds scriptId =>
        have hn : 1 ≤ n := le_trans (by cases type <;> cases cond <;> cases conds <;>
          cases scriptId <;> simp <;> omega) hc
        have hprev := ih (n - 1) (by omega)
        rw [findScriptUuidsSome_mk, specScriptLeafIds_mk, jsSetDedup_toFinset]
        by_cases hcomb : type = some "AND" ∨ type = some "OR" ∨ type = some "NOT"
        · simp only [if_pos hcomb, List.toFinset_append]
          congr 1
          · cases cond with
            | none => simp
            | some c =>
              refine hprev.1 c ?_
              have : sizeOf c < sizeOf (PolicyCondition.mk type (some c) conds scriptId) := by
                simp only [PolicyCondition.mk.sizeOf_spec, Option.some.sizeOf_spec]
                omega
              omega
          · cases conds with
            | none => simp
            | some l =>
              refine hprev.2 l ?_
              have : sizeOf l < sizeOf (PolicyCondition.mk type cond (some l) scriptId) := by
                simp only [PolicyCondition.mk.sizeOf_spec, Option.some.sizeOf_spec]
                omega
              omega
        · by_cases hs : type = some "Script"
          · simp [if_neg hcomb, if_pos hs]
          · simp [if_neg hcomb, if_neg hs]
    · intro l hl
      cases l with
      | nil => simp [findScriptUuidsList, specScriptLeafIdsList]
      | cons c rest =>
        have hn : 1 ≤ n := le_trans (by simp only [List.cons.sizeOf_spec]; omega) hl
        have hprev := ih (n - 1) (by omega)
        have hszc : sizeOf c < sizeOf (c :: rest) := by
          simp only [List.cons.sizeOf_spec]; omega
        have hszr : sizeOf rest < sizeOf (c :: rest) := by
          simp only [List.cons.sizeOf_spec]; omega
        rw [findScriptUuidsList, specScriptLeafIdsList, List.toFinset_append]
        rw [hprev.1 c (by omega), hprev.2 rest (by omega)]

theorem findScriptUuidsSome_toFinset (c : PolicyCondition) :
    (findScriptUuidsSome c).toFinset = specScriptLeafIds c :=
  (findScriptUuids_both (sizeOf c)).1 c le_rfl

theorem findScriptUuidsSome_nodup (c : PolicyCondition) :
    (findScriptUuidsSome c).Nodup := by
  cases c with
  | mk type cond conds scriptId =>
    rw [findScriptUuidsSome_mk]
    exact jsSetDedup_nodup _

/-- C1: for every condition tree built from AND/OR/NOT combinator nodes,
Script nodes, and nodes of other types, `findScriptUuids` returns exactly
the set of distinct `scriptId` values of the Script-type leaves reachable
through the combinators (set equality with the spec-side leaf set, and the
returned list has no duplicates); nodes of other types contribute nothing
(this is built into the leaf-set definition), and the inputs null and the
empty object `{}` both yield the empty list. -/
theorem findScriptUuids_correct :
    (∀ c : Option PolicyCondition,
      (findScriptUuids c).toFinset = specScriptLeafIdsOpt c ∧
      (findScriptUuids c).Nodup) ∧
    findScriptUuids none = [] ∧
    findScriptUuids (some (.mk none none none none)) = [] := by
  refine ⟨?_, rfl, ?_⟩
  · intro c
    cases c with
    | none => simp [findScriptUuids, specScriptLeafIdsOpt]
    | some c =>
      exact ⟨findScriptUuidsSome_toFinset c, findScriptUuidsSome_nodup c⟩
  · rw [findScriptUuids, findScriptUuidsSome_mk]
    simp [jsSetDedup, jsSetDedupAux]

/-! ## Error values

`FrodoError(message, cause-or-causes)` wraps a message and underlying
causes; raw HTTP rejections carry a status, a message and (for the OAuth2
invalid-attribute rejection) the `detail.validAttributes` list; `plain` is
a bare `new Error(message)`. -/

inductive ErrorValue : Type where
  | http (status : Nat) (message : String) (validAttributes : Option (List String))
  | frodo (message : String) (causes : List ErrorValue)
  | plain (message : String)

/-- `error.response?.status` of a raw HTTP rejection. -/
def responseStatus : ErrorValue → Option Nat
  | .http s _ _ => some s
  | _ => none

/-- `error.response?.data?.message` of a raw HTTP rejection. -/
def responseMessage : ErrorValue → Option String
  | .http _ m _ => some m
  | _ => none

/-- `error.response?.data?.detail?.validAttributes` of a raw HTTP rejection. -/
def responseValidAttributes : ErrorValue → Option (List String)
  | .http _ _ va => va
  | _ => none

/-- Modelled from the spec: `FrodoError.httpStatus` surfaces the HTTP status
of the deepest wrapped cause (FrodoError.ts is not under src/; spec §7 calls
the 403 status plus message pair "a known capability-absence signal" that
the engine recognizes on errors wrapped by single-object reads). -/
def httpStatus : ErrorValue → Option Nat
  | .http s _ _ => some s
  | .frodo _ (c :: _) => httpStatus c
  | .frodo _ [] => none
  | .plain _ => none

/-- Modelled from the spec: `FrodoError.httpMessage`, the message of the
deepest wrapped cause (companion of `httpStatus`). -/
def httpMessage : ErrorValue → Option String
  | .http _ m _ => some m
  | .frodo _ (c :: _) => httpMessage c
  | .frodo _ [] => none
  | .plain _ => none

/-- Direct causes of an error (empty for raw and plain errors). -/
def errorCauses : ErrorValue → List ErrorValue
  | .frodo _ cs => cs
  | _ => []

/-- Message of an error. -/
def errorMessage : ErrorValue → String
  | .http _ m _ => m
  | .frodo m _ => m
  | .plain m => m

/-! ## Config objects and bundles -/

/-- Script text as stored remotely (a base64 string) or in a bundle after
`useStringArrays` conversion (a line array). -/
inductive TextValue : Type where
  | raw (s : String)
  | lines (l : List String)
deriving DecidableEq

/-- Modelled from the spec: base64⇄line-array conversion is an out-of-scope
pure utility (`multilineToLines`); its exact content is irrelevant to every
claim, so it is represented by a fixed total function. -/
def convertBase64TextToArray : TextValue → List String
  | .raw s => [s]
  | .lines l => l

structure ScriptSkeleton where
  _id : String
  script : TextValue
deriving DecidableEq

structure ResourceTypeSkeleton where
  _id : String
deriving DecidableEq

structure PolicySetSkeleton where
  name : String
deriving DecidableEq

structure PolicySkeleton where
  _id : String
  _rev : Option String
  name : Option String
  resourceTypeUuid : Option String
  applicationName : Option String
  condition : Option PolicyCondition

/-- A dynamic field of an OAuth2 client object: the source treats client
data as an untyped map whose values are either nested attribute objects
(`typeof clientData[key] === 'object'`) or scalar strings. -/
inductive JsField : Type where
  | str (s : String)
  | obj (attrs : List (String × String))
deriving DecidableEq

/-- An OAuth2 client object: an insertion-ordered map of dynamic fields. -/
def ClientObj : Type := List (String × JsField)

/-- JS truthiness of an optional string field (`undefined` and `""` are
falsy). -/
def truthy : Option String → Bool
  | none => false
  | some s => s ≠ ""

/-- `${x}` string interpolation of a possibly-undefined value. -/
def optStr : Option String → String
  | none => "undefined"
  | some s => s

/-! ### Association-list primitives for JS objects -/

/-- `obj[k]` — JS object keys are unique, so first match. -/
def alGet {β : Type} (m : List (String × β)) (k : String) : Option β :=
  (m.find? (fun kv => kv.1 = k)).map (fun kv => kv.2)

/-- `obj[k] = v` — overwrite in place keeping the key position, else append
(JS insertion-order semantics). -/
def alSet {β : Type} (m : List (String × β)) (k : String) (v : β) :
    List (String × β) :=
  if m.any (fun kv => kv.1 = k) then
    m.map (fun kv => if kv.1 = k then (k, v) else kv)
  else m ++ [(k, v)]

/-- `delete obj[k]`. -/
def alDelete {β : Type} (m : List (String × β)) (k : String) :
    List (String × β) :=
  m.filter (fun kv => kv.1 ≠ k)

/-- JS `key.endsWith(suffix)`, computed structurally over the character
lists so that concrete runs reduce in the kernel. -/
def strEndsWith (s suffix : String) : Bool :=
  s.data.drop (s.data.length - suffix.data.length) == suffix.data

/-- `Object.keys(obj)`. -/
def alKeys {β : Type} (m : List (String × β)) : List String :=
  m.map (fun kv => kv.1)

/-- `clientData['_id']` rendered into a template string. -/
def jsGetStr (c : ClientObj) (k : String) : String :=
  match alGet c k with
  | some (.str s) => s
  | _ => "undefined"

/-- `PolicyExportInterface`: typed, id-keyed collections (the `meta` stamp
is opaque to every claim and omitted). -/
structure PolicyExportInterface where
  script : List (String × ScriptSkeleton)
  resourcetype : List (String × ResourceTypeSkeleton)
  policy : List (String × PolicySkeleton)
  policyset : List (String × PolicySetSkeleton)

/-- `createPolicyExportTemplate` minus the metadata stamp. -/
def createPolicyExportTemplate : PolicyExportInterface :=
  { script := [], resourcetype := [], policy := [], policyset := [] }

/-- `OAuth2ClientExportInterface` (again without `meta`); the optional
`script` collection is modelled as a plain list, an absent collection being
observationally the empty one for every lookup the source performs. -/
structure OAuth2ClientExportInterface where
  script : List (String × ScriptSkeleton)
  application : List (String × ClientObj)

def createOAuth2ClientExportTemplate : OAuth2ClientExportInterface :=
  { script := [], application := [] }

structure PolicyExportOptions where
  deps : Bool
  prereqs : Bool
  useStringArrays : Bool

structure PolicyImportOptions where
  deps : Bool
  prereqs : Bool
  policySetName : Option String

structure OAuth2ClientExportOptions where
  useStringArrays : Bool
  deps : Bool

structure OAuth2ClientImportOptions where
  deps : Bool

/-! ## Remote store: events and environment

Every remote call emits an `Event`; the environment fixes the outcome of
each read and write, so runs are deterministic and ordering claims are
statements about the emitted trace. -/

inductive Event : Type where
  | getPolicyEv (id : String)
  | getPoliciesEv
  | getPoliciesByPolicySetEv (policySetId : String)
  | getResourceTypeEv (uuid : String)
  | getPolicySetEv (name : String)
  | readScriptEv (id : Option String)
  | getClientEv (id : String)
  | getClientsEv
  | getProviderEv
  | putResourceTypeEv (uuid : String)
  | putPolicySetEv (name : String)
  | putPolicyEv (id : String) (data : PolicySkeleton)
  | putScriptEv (id : Option String) (data : Option ScriptSkeleton)
  | putClientEv (id : String) (data : List (String × JsField))

structure Env where
  getPolicyRes : String → Except ErrorValue PolicySkeleton
  getPoliciesRes : Except ErrorValue (List PolicySkeleton)
  getPoliciesByPolicySetRes : String → Except ErrorValue (List PolicySkeleton)
  getResourceTypeRes : String → Except ErrorValue ResourceTypeSkeleton
  readPolicySetRes : String → Except ErrorValue PolicySetSkeleton
  readScriptRes : Option String → Except ErrorValue ScriptSkeleton
  getClientRes : String → Except ErrorValue ClientObj
  getClientsRes : Except ErrorValue (List ClientObj)
  readProviderRes : Except ErrorValue JsField
  putRes : Event → Option ErrorValue

/-- Modelled from the spec: realm-name resolution is an out-of-scope
collaborator; `getCurrentRealmName(state) + ' realm'` is rendered with a
fixed realm. -/
def realmStr : String := "current realm"

/-! ### Single-object remote operations -/

/-- `PolicyOps.updatePolicy`: unconditional put, echoing the written object
on success and wrapping the rejection on failure. -/
def updatePolicyM (env : Env) (policyId : String) (policyData : PolicySkeleton) :
    List Event × Except ErrorValue PolicySkeleton :=
  let ev := Event.putPolicyEv policyId policyData
  match env.putRes ev with
  | none => ([ev], .ok policyData)
  | some e =>
    ([ev], .error (.frodo ("Error updating " ++ realmStr ++ " policy " ++ policyId) [e]))

/-- Modelled from the spec: `ResourceTypeOps.updateResourceType` (not under
src/) is the plain `writeOne` upsert for resource types, failing with the
store rejection. -/
def updateResourceTypeM (env : Env) (resourceTypeUuid : String) :
    List Event × Option ErrorValue :=
  let ev := Event.putResourceTypeEv resourceTypeUuid
  ([ev], env.putRes ev)

/-- Modelled from the spec: `PolicySetOps.updatePolicySet` (not under src/)
is the plain `writeOne` upsert for policy sets. -/
def updatePolicySetM (env : Env) (policySetName : String) :
    List Event × Option ErrorValue :=
  let ev := Event.putPolicySetEv policySetName
  ([ev], env.putRes ev)

/-- Modelled from the spec: `ScriptOps.updateScript` (not under src/) is
the plain `writeOne` upsert for scripts; the policy import path can reach
it with an `undefined` script object (a reference missing from the bundle),
so the payload is optional. -/
def updateScriptM (env : Env) (scriptId : Option String)
    (scriptData : Option ScriptSkeleton) : List Event × Option ErrorValue :=
  let ev := Event.putScriptEv scriptId scriptData
  ([ev], env.putRes ev)

/-- Modelled from the spec: `ScriptOps.readScript` (not under src/) is the
plain `readOne` for scripts. -/
def readScriptM (env : Env) (scriptId : Option String) :
    List Event × Except ErrorValue ScriptSkeleton :=
  ([Event.readScriptEv scriptId], env.readScriptRes scriptId)

/-- Modelled from the spec: `ResourceTypesApi.getResourceType` (not under
src/) is the plain `readOne` for resource types. -/
def getResourceTypeM (env : Env) (uuid : String) :
    List Event × Except ErrorValue ResourceTypeSkeleton :=
  ([Event.getResourceTypeEv uuid], env.getResourceTypeRes uuid)

/-- Modelled from the spec: `PolicySetOps.readPolicySet` (not under src/)
is the plain `readOne` for policy sets. -/
def readPolicySetM (env : Env) (name : String) :
    List Event × Except ErrorValue PolicySetSkeleton :=
  ([Event.getPolicySetEv name], env.readPolicySetRes name)

/-! ## Policy import (PolicyOps.ts) -/

/-- `PolicyOps.createPolicy`: probe existence with a raw `_getPolicy`; any
probe failure falls into the catch and proceeds to a raw `_putPolicy`
(wrapping a put rejection); a successful probe raises the bare
`already exists` error without writing. -/
def createPolicyM (env : Env) (policyId : String) (policyData : PolicySkeleton) :
    List Event × Except ErrorValue PolicySkeleton :=
  match env.getPolicyRes policyId with
  | .ok _ =>
    ([Event.getPolicyEv policyId],
      .error (.plain ("Policy " ++ policyId ++ " already exists!")))
  | .error _ =>
    let ev := Event.putPolicyEv policyId policyData
    match env.putRes ev with
    | none => ([Event.getPolicyEv policyId, ev], .ok policyData)
    | some e =>
      ([Event.getPolicyEv policyId, ev],
        .error (.frodo ("Error creating " ++ realmStr ++ " policy " ++ policyId) [e]))

/-- The resource-type block of `importPolicyPrerequisites`: write the
resource type named by the policy when present in the bundle
(`exportData.resourcetype[policyData.resourceTypeUuid]`). -/
def importPolicyPrereqRT (env : Env) (policyData : PolicySkeleton)
    (exportData : PolicyExportInterface) : List Event × List ErrorValue :=
  match policyData.resourceTypeUuid with
  | some uuid =>
    match alGet exportData.resourcetype uuid with
    | some _ =>
      let (tr, out) := updateResourceTypeM env uuid
      match out with
      | none => (tr, [])
      | some e =>
        (tr, [ErrorValue.frodo
          ("Error importing " ++ realmStr ++ " prerequisite resource type " ++ uuid) [e]])
    | none => ([], [])
  | none => ([], [])

/-- The policy-set block of `importPolicyPrerequisites`. -/
def importPolicyPrereqPS (env : Env) (policyData : PolicySkeleton)
    (exportData : PolicyExportInterface) : List Event × List ErrorValue :=
  match policyData.applicationName with
  | some app =>
    match alGet exportData.policyset app with
    | some _ =>
      let (tr, out) := updatePolicySetM env app
      match out with
      | none => (tr, [])
      | some e =>
        (tr, [ErrorValue.frodo
          ("Error importing " ++ realmStr ++ " prerequisite policy set " ++ app) [e]])
    | none => ([], [])
  | none => ([], [])

/-- `PolicyOps.importPolicyPrerequisites`: write the resource type and then
the policy set named by the policy, each only when present in the bundle,
collecting both failures before raising them together. -/
def importPolicyPrerequisitesM (env : Env) (policyData : PolicySkeleton)
    (exportData : PolicyExportInterface) : List Event × Option ErrorValue :=
  let (tr1, errs1) := importPolicyPrereqRT env policyData exportData
  let (tr2, errs2) := importPolicyPrereqPS env policyData exportData
  match errs1 ++ errs2 with
  | [] => (tr1 ++ tr2, none)
  | errs =>
    (tr1 ++ tr2, some (.frodo
      ("Error importing " ++ realmStr ++ " prerequisites for policy " ++ policyData._id) errs))

/-- The `for (const scriptUuid of scriptUuids)` loop of
`importPolicyDependencies`: look the script up in the bundle (possibly
`undefined`) and call `updateScript` with whatever was found, collecting
per-script failures. -/
def importPolicyDependenciesLoop (env : Env) (pid : String)
    (exportData : PolicyExportInterface) :
    List (Option String) → List Event × List ErrorValue
  | [] => ([], [])
  | uuid :: rest =>
    let scriptData := uuid.bind (fun u => alGet exportData.script u)
    let (tr, out) := updateScriptM env uuid scriptData
    let (trR, errsR) := importPolicyDependenciesLoop env pid exportData rest
    match out with
    | none => (tr ++ trR, errsR)
    | some e =>
      (tr ++ trR,
        (ErrorValue.frodo
          ("Error importing " ++ realmStr ++ " script " ++ optStr uuid ++
            " for policy " ++ pid) [e]) :: errsR)

/-- `PolicyOps.importPolicyDependencies`: write every script referenced by
the policy condition, sourcing each from the bundle script collection (a
missing reference yields an `undefined` payload, not a skip), and raise the
collected failures together. -/
def importPolicyDependenciesM (env : Env) (policyData : PolicySkeleton)
    (exportData : PolicyExportInterface) : List Event × Option ErrorValue :=
  let scriptUuids := findScriptUuids policyData.condition
  let (tr, errs) := importPolicyDependenciesLoop env policyData._id exportData scriptUuids
  match errs with
  | [] => (tr, none)
  | _ =>
    (tr, some (.frodo
      ("Error importing " ++ realmStr ++ " soft dependencies for policy " ++
        policyData._id) errs))

/-- The field updates the per-entry import pipeline performs in place on a
bundle entry: `delete policyData._rev` and the `options.policySetName`
override. -/
def stripPolicyEntry (options : PolicyImportOptions) (p : PolicySkeleton) :
    PolicySkeleton :=
  let p1 := { p with _rev := none }
  if truthy options.policySetName then
    { p1 with applicationName := options.policySetName }
  else p1

/-- The `options.prereqs` guard around `importPolicyPrerequisites` inside
the per-entry pipeline: its thrown error is caught and collected. -/
def runPrereqStep (env : Env) (options : PolicyImportOptions)
    (p2 : PolicySkeleton) (b1 : PolicyExportInterface) :
    List Event × List ErrorValue :=
  if options.prereqs then
    match importPolicyPrerequisitesM env p2 b1 with
    | (tr, none) => (tr, [])
    | (tr, some e) => (tr, [e])
  else ([], [])

/-- The `updatePolicy` call of the per-entry pipeline: its failure is
collected, its success recorded as the response. -/
def runUpdateStep (env : Env) (p2 : PolicySkeleton) :
    List Event × List ErrorValue × Option PolicySkeleton :=
  match updatePolicyM env p2._id p2 with
  | (tr, .ok r) => (tr, [], some r)
  | (tr, .error e) => (tr, [e], none)

/-- The `options.deps` guard around `importPolicyDependencies` inside the
per-entry pipeline. -/
def runDepsStep (env : Env) (options : PolicyImportOptions)
    (p2 : PolicySkeleton) (b1 : PolicyExportInterface) :
    List Event × List ErrorValue :=
  if options.deps then
    match importPolicyDependenciesM env p2 b1 with
    | (tr, none) => (tr, [])
    | (tr, some e) => (tr, [e])
  else ([], [])

/-- The per-entry body shared verbatim by `importPolicy`,
`importFirstPolicy` and `importPolicies`: read the entry (aliasing the
bundle object, so the strip mutates the bundle), write prerequisites when
requested, upsert the policy, write script dependencies when requested;
returns the trace, the mutated bundle, the errors contributed by this
entry, and the update response when the upsert succeeded. -/
def importPolicyEntryM (env : Env) (options : PolicyImportOptions)
    (importData : PolicyExportInterface) (id : String) :
    List Event × PolicyExportInterface × List ErrorValue × Option PolicySkeleton :=
  match alGet importData.policy id with
  | none =>
    -- `delete undefined._rev` raises a TypeError caught by the per-entry
    -- catch; unreachable when id is drawn from Object.keys(importData.policy)
    ([], importData, [.plain "TypeError"], none)
  | some p0 =>
    let p2 := stripPolicyEntry options p0
    let importData1 := { importData with policy := alSet importData.policy id p2 }
    let pr := runPrereqStep env options p2 importData1
    let up := runUpdateStep env p2
    let dp := runDepsStep env options p2 importData1
    (pr.1 ++ up.1 ++ dp.1, importData1, pr.2 ++ up.2.1 ++ dp.2, up.2.2)

/-- The `for (const id of Object.keys(importData.policy))` loop of
`importPolicy`: process exactly the keys equal to the requested id,
threading the (mutated) bundle; returns trace, bundle, errors, the
`imported` key list and the final `response`. -/
def importPolicyLoop (env : Env) (options : PolicyImportOptions)
    (policyId : String) :
    List String → PolicyExportInterface →
    List Event × PolicyExportInterface × List ErrorValue × List String ×
      Option PolicySkeleton
  | [], bundle => ([], bundle, [], [], none)
  | id :: rest, bundle =>
    if id = policyId then
      let (tr, bundle1, errs, resp) := importPolicyEntryM env options bundle id
      let (trR, bundleR, errsR, impR, respR) :=
        importPolicyLoop env options policyId rest bundle1
      (tr ++ trR, bundleR, errs ++ errsR,
        (match resp with | some _ => [id] | none => []) ++ impR,
        match respR with | some r => some r | none => resp)
    else importPolicyLoop env options policyId rest bundle

/-- `PolicyOps.importPolicy`: import the bundle entry with the requested
id; an aggregate error if any step failed, the `not found in import data`
error if no key matched. -/
def importPolicyM (env : Env) (policyId : String)
    (importData : PolicyExportInterface) (options : PolicyImportOptions) :
    List Event × PolicyExportInterface × Except ErrorValue (Option PolicySkeleton) :=
  let (tr, bundle, errors, imported, response) :=
    importPolicyLoop env options policyId (alKeys importData.policy) importData
  if errors.length > 0 then
    (tr, bundle,
      .error (.frodo ("Error importing " ++ realmStr ++ " policy " ++ policyId) errors))
  else if imported.length = 0 then
    (tr, bundle, .error (.frodo ("Policy " ++ policyId ++ " not found in import data") []))
  else (tr, bundle, .ok response)

/-- `PolicyOps.importFirstPolicy`: the key loop breaks after its first
iteration, so only the first entry is processed; the empty bundle falls
through to the `No policy found in import data` error. -/
def importFirstPolicyM (env : Env) (importData : PolicyExportInterface)
    (options : PolicyImportOptions) :
    List Event × PolicyExportInterface × Except ErrorValue (Option PolicySkeleton) :=
  match alKeys importData.policy with
  | [] => ([], importData, .error (.frodo "No policy found in import data" []))
  | id :: _ =>
    let (tr, bundle1, errs, resp) := importPolicyEntryM env options importData id
    if errs.length > 0 then
      (tr, bundle1,
        .error (.frodo ("Error importing first " ++ realmStr ++ " policy") errs))
    else
      match resp with
      | none => (tr, bundle1, .error (.frodo "No policy found in import data" []))
      | some r => (tr, bundle1, .ok (some r))

/-- The `for (const id of Object.keys(importData.policy))` loop of
`importPolicies`: process every key, threading the bundle and collecting
errors and successful responses. -/
def importPoliciesLoop (env : Env) (options : PolicyImportOptions) :
    List String → PolicyExportInterface →
    List Event × PolicyExportInterface × List ErrorValue × List PolicySkeleton
  | [], bundle => ([], bundle, [], [])
  | id :: rest, bundle =>
    let (tr, bundle1, errs, resp) := importPolicyEntryM env options bundle id
    let (trR, bundleR, errsR, respsR) := importPoliciesLoop env options rest bundle1
    (tr ++ trR, bundleR, errs ++ errsR,
      (match resp with | some r => [r] | none => []) ++ respsR)

/-- `PolicyOps.importPolicies`: import every entry, never short-circuiting,
and raise the collected errors together afterwards. -/
def importPoliciesM (env : Env) (importData : PolicyExportInterface)
    (options : PolicyImportOptions) :
    List Event × PolicyExportInterface × Except ErrorValue (List PolicySkeleton) :=
  let (tr, bundle, errors, resps) :=
    importPoliciesLoop env options (alKeys importData.policy) importData
  if errors.length > 0 then
    (tr, bundle,
      .error (.frodo ("Error importing " ++ realmStr ++ " policies") errors))
  else (tr, bundle, .ok resps)

/-! ## Policy export (PolicyOps.ts) -/

/-- `PolicyOps.exportPolicyPrerequisites`: fetch the resource type and the
policy set named by the policy (the JS `if (policyData.resourceTypeUuid)`
guard is a truthiness test, so the empty string is skipped too), attach
them to the bundle, and raise collected failures together. -/
def exportPrereqRTStep (env : Env) (policyData : PolicySkeleton)
    (exportData : PolicyExportInterface) :
    List Event × PolicyExportInterface × List ErrorValue :=
  match policyData.resourceTypeUuid with
  | some uuid =>
    if uuid = "" then ([], exportData, [])
    else
      let (tr, res) := getResourceTypeM env uuid
      match res with
      | .ok rt =>
        (tr, { exportData with resourcetype := alSet exportData.resourcetype uuid rt }, [])
      | .error e => (tr, exportData, [e])
  | none => ([], exportData, [])

def exportPrereqPSStep (env : Env) (policyData : PolicySkeleton)
    (exportData : PolicyExportInterface) :
    List Event × PolicyExportInterface × List ErrorValue :=
  match policyData.applicationName with
  | some app =>
    if app = "" then ([], exportData, [])
    else
      let (tr, res) := readPolicySetM env app
      match res with
      | .ok ps => (tr, { exportData with policyset := alSet exportData.policyset app ps }, [])
      | .error e => (tr, exportData, [e])
  | none => ([], exportData, [])

def exportPolicyPrerequisitesM (env : Env) (policyData : PolicySkeleton)
    (exportData : PolicyExportInterface) :
    List Event × PolicyExportInterface × List ErrorValue :=
  let (tr1, ed1, errs1) := exportPrereqRTStep env policyData exportData
  let (tr2, ed2, errs2) := exportPrereqPSStep env policyData ed1
  (tr1 ++ tr2, ed2, errs1 ++ errs2)

/-- The aggregate raise of `exportPolicyPrerequisites`: an error exactly
when at least one prerequisite fetch failed. -/
def exportPolicyPrerequisitesRun (env : Env) (policyData : PolicySkeleton)
    (exportData : PolicyExportInterface) :
    List Event × PolicyExportInterface × Option ErrorValue :=
  let (tr, ed, errs) := exportPolicyPrerequisitesM env policyData exportData
  match errs with
  | [] => (tr, ed, none)
  | _ =>
    (tr, ed, some (.frodo
      ("Error exporting " ++ realmStr ++ " policy prerequisites") errs))

/-- The `for (const scriptUuid of scriptUuids)` loop of
`PolicyOps.getScripts`: read every referenced script, collecting per-script
failures. -/
def getScriptsLoop (env : Env) (pname : String) :
    List (Option String) → List Event × List ScriptSkeleton × List ErrorValue
  | [] => ([], [], [])
  | uuid :: rest =>
    let (tr, res) := readScriptM env uuid
    let (trR, scR, errsR) := getScriptsLoop env pname rest
    match res with
    | .ok s => (tr ++ trR, s :: scR, errsR)
    | .error e =>
      (tr ++ trR, scR,
        (ErrorValue.frodo
          ("Error retrieving " ++ realmStr ++ " script " ++ optStr uuid ++
            " referenced in policy " ++ pname) [e]) :: errsR)

/-- `PolicyOps.getScripts`: resolve every script referenced in the policy
condition, raising the collected failures together. -/
def getScriptsM (env : Env) (policyData : PolicySkeleton) :
    List Event × Except ErrorValue (List ScriptSkeleton) :=
  let scriptUuids := findScriptUuids policyData.condition
  let (tr, scripts, errs) := getScriptsLoop env (optStr policyData.name) scriptUuids
  match errs with
  | [] => (tr, .ok scripts)
  | _ =>
    (tr, .error (.frodo ("Error getting " ++ realmStr ++ " policy scripts") errs))

/-- `PolicyOps.exportPolicyDependencies`: fetch the referenced scripts,
convert their text when `useStringArrays` is set, attach them under their
ids, and wrap a fetch failure. -/
def exportPolicyDependenciesM (env : Env) (options : PolicyExportOptions)
    (policyData : PolicySkeleton) (exportData : PolicyExportInterface) :
    List Event × PolicyExportInterface × Option ErrorValue :=
  let (tr, res) := getScriptsM env policyData
  match res with
  | .ok scripts =>
    let ed1 := scripts.foldl (fun ed sd =>
      let sd1 :=
        if options.useStringArrays then
          { sd with script := .lines (convertBase64TextToArray sd.script) }
        else sd
      { ed with script := alSet ed.script sd1._id sd1 }) exportData
    (tr, ed1, none)
  | .error e =>
    (tr, exportData,
      some (.frodo ("Error exporting " ++ realmStr ++ " policy dependencies") [e]))

/-- The `options.prereqs` guard around `exportPolicyPrerequisites` inside
the per-policy export loop: its thrown error is caught and collected. -/
def exportPrereqStepP (env : Env) (options : PolicyExportOptions)
    (p : PolicySkeleton) (ed1 : PolicyExportInterface) :
    List Event × PolicyExportInterface × List ErrorValue :=
  if options.prereqs then
    match exportPolicyPrerequisitesRun env p ed1 with
    | (tr, edN, none) => (tr, edN, [])
    | (tr, edN, some e) => (tr, edN, [e])
  else ([], ed1, [])

/-- The `options.deps` guard around `exportPolicyDependencies` inside the
per-policy export loop. -/
def exportDepsStepP (env : Env) (options : PolicyExportOptions)
    (p : PolicySkeleton) (ed2 : PolicyExportInterface) :
    List Event × PolicyExportInterface × List ErrorValue :=
  if options.deps then
    match exportPolicyDependenciesM env options p ed2 with
    | (tr, edN, none) => (tr, edN, [])
    | (tr, edN, some e) => (tr, edN, [e])
  else ([], ed2, [])

/-- The per-policy loop shared verbatim by `exportPolicies` and
`exportPoliciesByPolicySet`: attach the policy, then its prerequisites and
dependencies when requested, collecting per-item errors and never breaking
out of the loop. -/
def exportPoliciesLoop (env : Env) (options : PolicyExportOptions) :
    List PolicySkeleton → PolicyExportInterface →
    List Event × PolicyExportInterface × List ErrorValue
  | [], ed => ([], ed, [])
  | p :: rest, ed =>
    let ed1 := { ed with policy := alSet ed.policy p._id p }
    let (trP, ed2, errsP) := exportPrereqStepP env options p ed1
    let (trD, ed3, errsD) := exportDepsStepP env options p ed2
    let (trR, edR, errsR) := exportPoliciesLoop env options rest ed3
    (trP ++ trD ++ trR, edR, errsP ++ errsD ++ errsR)

/-- `PolicyOps.exportPolicies`: list all policies, process each, and raise
the collected per-item errors together; the bundle is returned only when
no error occurred. -/
def exportPoliciesM (env : Env) (options : PolicyExportOptions) :
    List Event × Except ErrorValue PolicyExportInterface :=
  match env.getPoliciesRes with
  | .error e =>
    ([Event.getPoliciesEv],
      .error (.frodo ("Error exporting " ++ realmStr ++ " policies")
        [.frodo ("Error reading " ++ realmStr ++ " policies") [e]]))
  | .ok policies =>
    let (tr, ed, errs) :=
      exportPoliciesLoop env options policies createPolicyExportTemplate
    if errs.length > 0 then
      (Event.getPoliciesEv :: tr,
        .error (.frodo ("Error exporting " ++ realmStr ++ " policies") errs))
    else (Event.getPoliciesEv :: tr, .ok ed)

/-- `PolicyOps.exportPoliciesByPolicySet`: identical to `exportPolicies`
over the policies of one set. -/
def exportPoliciesByPolicySetM (env : Env) (policySetName : String)
    (options : PolicyExportOptions) :
    List Event × Except ErrorValue PolicyExportInterface :=
  match env.getPoliciesByPolicySetRes policySetName with
  | .error e =>
    ([Event.getPoliciesByPolicySetEv policySetName],
      .error (.frodo ("Error exporting " ++ realmStr ++ " policies in set " ++ policySetName)
        [.frodo ("Error reading " ++ realmStr ++ " policies in set " ++ policySetName) [e]]))
  | .ok policies =>
    let (tr, ed, errs) :=
      exportPoliciesLoop env options policies createPolicyExportTemplate
    if errs.length > 0 then
      (Event.getPoliciesByPolicySetEv policySetName :: tr,
        .error (.frodo ("Error exporting " ++ realmStr ++ " policies in set " ++ policySetName) errs))
    else (Event.getPoliciesByPolicySetEv policySetName :: tr, .ok ed)

/-! ## OAuth2 clients (OAuth2ClientOps.ts) -/

def capabilityMsg : String :=
  "This operation is not available in PingOne Advanced Identity Cloud."

def invalidAttrMsg : String := "Invalid attribute specified."

/-- `OAuth2ClientOps.readOAuth2Clients`: the 403 capability-absence signal
on the all-objects listing is normalized to the empty list; any other
listing failure is wrapped and propagated. -/
def readOAuth2ClientsM (env : Env) :
    List Event × Except ErrorValue (List ClientObj) :=
  match env.getClientsRes with
  | .ok clients => ([Event.getClientsEv], .ok clients)
  | .error e =>
    if responseStatus e = some 403 ∧ responseMessage e = some capabilityMsg then
      ([Event.getClientsEv], .ok [])
    else
      ([Event.getClientsEv],
        .error (.frodo ("Error reading " ++ realmStr ++ " oauth2 clients") [e]))

/-- The repair pass of `updateOAuth2Client`: from every nested
object-valued field, delete each attribute not in the reported
valid-attribute list. -/
def stripInvalidAttrs (validAttributes : List String) (clientData : ClientObj) :
    ClientObj :=
  clientData.map (fun kv =>
    match kv.2 with
    | .obj attrs =>
      (kv.1, JsField.obj (attrs.filter (fun av => validAttributes.contains av.1)))
    | .str s => (kv.1, JsField.str s))

/-- `OAuth2ClientOps.updateOAuth2Client`: put the client; on the specific
400 `Invalid attribute specified.` rejection, strip the attributes the
server reported invalid (always keeping `_id`) in place and retry exactly
once, wrapping the retry rejection if the retry also fails; any other
rejection is wrapped without repair. Returns the trace, the (possibly
repaired, caller-visible) client data and the result. -/
def updateOAuth2ClientM (env : Env) (clientId : String) (clientData : ClientObj) :
    List Event × ClientObj × Except ErrorValue ClientObj :=
  let ev1 := Event.putClientEv clientId clientData
  match env.putRes ev1 with
  | none => ([ev1], clientData, .ok clientData)
  | some e =>
    if responseStatus e = some 400 ∧ responseMessage e = some invalidAttrMsg then
      match responseValidAttributes e with
      | none =>
        -- `const { validAttributes } = error.response.data.detail` raises a
        -- TypeError when the detail is absent; the inner catch wraps it
        ([ev1], clientData,
          .error (.frodo ("Error updating " ++ realmStr ++ " oauth2 client " ++ clientId)
            [.plain "TypeError"]))
      | some va =>
        let va1 := va ++ ["_id"]
        let cd1 := stripInvalidAttrs va1 clientData
        let ev2 := Event.putClientEv clientId cd1
        match env.putRes ev2 with
        | none => ([ev1, ev2], cd1, .ok cd1)
        | some e2 =>
          ([ev1, ev2], cd1,
            .error (.frodo ("Error updating " ++ realmStr ++ " oauth2 client " ++ clientId) [e2]))
    else
      ([ev1], clientData,
        .error (.frodo ("Error updating " ++ realmStr ++ " oauth2 client " ++ clientId) [e]))

/-- `OAuth2ClientOps.createOAuth2Client`: probe existence with
`readOAuth2Client`; any probe failure proceeds to the unconditional update
(wrapping an update failure); a successful probe raises `already exists!`
without writing. -/
def createOAuth2ClientM (env : Env) (clientId : String) (clientData : ClientObj) :
    List Event × Except ErrorValue ClientObj :=
  match env.getClientRes clientId with
  | .ok _ =>
    ([Event.getClientEv clientId],
      .error (.frodo (realmStr ++ " oAuth2 client " ++ clientId ++ " already exists!") []))
  | .error _ =>
    let (tr, _, res) := updateOAuth2ClientM env clientId clientData
    match res with
    | .ok r => (Event.getClientEv clientId :: tr, .ok r)
    | .error e =>
      (Event.getClientEv clientId :: tr,
        .error (.frodo ("Error creating " ++ realmStr ++ " oauth2 client " ++ clientId) [e]))

/-- The key loop of `exportOAuth2ClientDependencies` over the override map:
a key ending in `Script` whose value is neither the `[Empty]` sentinel nor
already in the bundle is fetched; a fetch failure carrying the
capability-absence signal is swallowed (that script is skipped), any other
fetch failure is thrown, aborting the remaining keys. -/
def exportOAuth2ClientDependenciesLoop (env : Env)
    (options : OAuth2ClientExportOptions) (clientIdStr : String) :
    List (String × String) → OAuth2ClientExportInterface →
    List Event × OAuth2ClientExportInterface × Option ErrorValue
  | [], ed => ([], ed, none)
  | (k, v) :: rest, ed =>
    if strEndsWith k "Script" then
      if v = "[Empty]" then
        exportOAuth2ClientDependenciesLoop env options clientIdStr rest ed
      else
        match alGet ed.script v with
        | some _ => exportOAuth2ClientDependenciesLoop env options clientIdStr rest ed
        | none =>
          let (trR, res) := readScriptM env (some v)
          match res with
          | .ok scriptData =>
            let sd :=
              if options.useStringArrays then
                { scriptData with script := .lines (convertBase64TextToArray scriptData.script) }
              else scriptData
            let ed1 := { ed with script := alSet ed.script v sd }
            let (trRest, edR, outR) :=
              exportOAuth2ClientDependenciesLoop env options clientIdStr rest ed1
            (trR ++ trRest, edR, outR)
          | .error e =>
            if httpStatus e = some 403 ∧ httpMessage e = some capabilityMsg then
              let (trRest, edR, outR) :=
                exportOAuth2ClientDependenciesLoop env options clientIdStr rest ed
              (trR ++ trRest, edR, outR)
            else
              (trR, ed,
                some (.frodo
                  ("Error retrieving " ++ realmStr ++ " script " ++ v ++
                    " referenced by " ++ k ++ " key in client " ++ clientIdStr) [e]))
    else exportOAuth2ClientDependenciesLoop env options clientIdStr rest ed

/-- `OAuth2ClientOps.exportOAuth2ClientDependencies`: iterate the own keys
of `overrideOAuth2ClientConfig`, one level only (a non-object field yields
no keys ending in `Script` and is a no-op). -/
def exportOAuth2ClientDependenciesM (env : Env)
    (options : OAuth2ClientExportOptions) (clientData : ClientObj)
    (exportData : OAuth2ClientExportInterface) :
    List Event × OAuth2ClientExportInterface × Option ErrorValue :=
  match alGet clientData "overrideOAuth2ClientConfig" with
  | some (.obj attrs) =>
    exportOAuth2ClientDependenciesLoop env options (jsGetStr clientData "_id")
      attrs exportData
  | _ => ([], exportData, none)

/-- The per-client body of the `exportOAuth2Clients` loop: attach the
provider to the client, attach the client, resolve its dependencies when
requested, catching and collecting the dependency failure. -/
def exportClientStep (env : Env) (options : OAuth2ClientExportOptions)
    (provider : JsField) (client : ClientObj)
    (ed : OAuth2ClientExportInterface) :
    List Event × OAuth2ClientExportInterface × List ErrorValue :=
  let client1 := alSet client "_provider" provider
  let ed1 :=
    { ed with application := alSet ed.application (jsGetStr client1 "_id") client1 }
  if options.deps then
    match exportOAuth2ClientDependenciesM env options client1 ed1 with
    | (tr, edN, none) => (tr, edN, [])
    | (tr, edN, some e) => (tr, edN, [e])
  else ([], ed1, [])

/-- The per-client loop of `exportOAuth2Clients`: process every client,
collecting per-client errors without breaking the loop. -/
def exportOAuth2ClientsLoop (env : Env) (options : OAuth2ClientExportOptions)
    (provider : JsField) :
    List ClientObj → OAuth2ClientExportInterface →
    List Event × OAuth2ClientExportInterface × List ErrorValue
  | [], ed => ([], ed, [])
  | client :: rest, ed =>
    let (trD, ed2, errsD) := exportClientStep env options provider client ed
    let (trR, edR, errsR) := exportOAuth2ClientsLoop env options provider rest ed2
    (trD ++ trR, edR, errsD ++ errsR)

/-- `OAuth2ClientOps.exportOAuth2Clients`: read the provider and the client
listing, process every client, and raise the collected errors together;
the bundle is returned only when no error occurred. -/
def exportOAuth2ClientsM (env : Env) (options : OAuth2ClientExportOptions) :
    List Event × Except ErrorValue OAuth2ClientExportInterface :=
  match env.readProviderRes with
  | .error e =>
    ([Event.getProviderEv],
      .error (.frodo ("Error exporting " ++ realmStr ++ " oauth2 clients") [e]))
  | .ok provider =>
    let (trC, resC) := readOAuth2ClientsM env
    match resC with
    | .error e =>
      (Event.getProviderEv :: trC,
        .error (.frodo ("Error exporting " ++ realmStr ++ " oauth2 clients") [e]))
    | .ok clients =>
      let (tr, ed, errs) :=
        exportOAuth2ClientsLoop env options provider clients
          createOAuth2ClientExportTemplate
      if errs.length > 0 then
        (Event.getProviderEv :: trC ++ tr,
          .error (.frodo ("Error exporting " ++ realmStr ++ " oauth2 clients") errs))
      else (Event.getProviderEv :: trC ++ tr, .ok ed)

/-- The key loop of `importOAuth2ClientDependencies`: a key ending in
`Script` whose value is neither the sentinel nor absent from the bundle
script collection is written; an absent reference is skipped silently; a
write failure is thrown, aborting the remaining keys. -/
def importOAuth2ClientDependenciesLoop (env : Env)
    (importData : OAuth2ClientExportInterface) :
    List (String × String) → List Event × Option ErrorValue
  | [] => ([], none)
  | (k, v) :: rest =>
    if strEndsWith k "Script" then
      if v ≠ "[Empty]" then
        match alGet importData.script v with
        | some scriptData =>
          let (tr, out) := updateScriptM env (some v) (some scriptData)
          match out with
          | some e =>
            (tr, some (.frodo
              ("Error importing " ++ realmStr ++ " script dependency " ++ v) [e]))
          | none =>
            let (trRest, outR) := importOAuth2ClientDependenciesLoop env importData rest
            (tr ++ trRest, outR)
        | none => importOAuth2ClientDependenciesLoop env importData rest
      else importOAuth2ClientDependenciesLoop env importData rest
    else importOAuth2ClientDependenciesLoop env importData rest

/-- `OAuth2ClientOps.importOAuth2ClientDependencies`. -/
def importOAuth2ClientDependenciesM (env : Env) (clientData : ClientObj)
    (importData : OAuth2ClientExportInterface) :
    List Event × Option ErrorValue :=
  match alGet clientData "overrideOAuth2ClientConfig" with
  | some (.obj attrs) => importOAuth2ClientDependenciesLoop env importData attrs
  | _ => ([], none)

/-- The field deletions the per-entry client import performs in place:
`delete clientData._provider; delete clientData._rev`. -/
def stripClientEntry (c : ClientObj) : ClientObj :=
  alDelete (alDelete c "_provider") "_rev"

/-- The per-entry body shared by `importOAuth2Client`,
`importFirstOAuth2Client` and `importOAuth2Clients`: strip the server-only
fields in place, write the script dependencies when requested (their
failure throws past the client update), then update the client (whose
repair pass mutates the entry in place too). -/
def importOAuth2ClientEntryM (env : Env) (options : OAuth2ClientImportOptions)
    (importData : OAuth2ClientExportInterface) (id : String) :
    List Event × OAuth2ClientExportInterface × List ErrorValue × Option ClientObj :=
  match alGet importData.application id with
  | none =>
    -- `delete undefined._provider` raises a TypeError; unreachable when id
    -- is drawn from Object.keys(importData.application)
    ([], importData, [.plain "TypeError"], none)
  | some c0 =>
    let c1 := stripClientEntry c0
    let importData1 :=
      { importData with application := alSet importData.application id c1 }
    let runUpdate := fun (trD : List Event) =>
      let (trU, cFinal, resU) := updateOAuth2ClientM env id c1
      let importData2 :=
        { importData1 with application := alSet importData1.application id cFinal }
      match resU with
      | .ok r => (trD ++ trU, importData2, ([] : List ErrorValue), some r)
      | .error e => (trD ++ trU, importData2, [e], (none : Option ClientObj))
    if options.deps then
      match importOAuth2ClientDependenciesM env c1 importData1 with
      | (trD, some e) => (trD, importData1, [e], none)
      | (trD, none) => runUpdate trD
    else runUpdate []

/-- The key loop of `importOAuth2Client`: process exactly the keys equal
to the requested id. -/
def importOAuth2ClientLoop (env : Env) (options : OAuth2ClientImportOptions)
    (clientId : String) :
    List String → OAuth2ClientExportInterface →
    List Event × OAuth2ClientExportInterface × List ErrorValue × List String ×
      Option ClientObj
  | [], bundle => ([], bundle, [], [], none)
  | id :: rest, bundle =>
    if id = clientId then
      let (tr, bundle1, errs, resp) := importOAuth2ClientEntryM env options bundle id
      let (trR, bundleR, errsR, impR, respR) :=
        importOAuth2ClientLoop env options clientId rest bundle1
      (tr ++ trR, bundleR, errs ++ errsR,
        (match resp with | some _ => [id] | none => []) ++ impR,
        match respR with | some r => some r | none => resp)
    else importOAuth2ClientLoop env options clientId rest bundle

/-- `OAuth2ClientOps.importOAuth2Client`. -/
def importOAuth2ClientM (env : Env) (clientId : String)
    (importData : OAuth2ClientExportInterface)
    (options : OAuth2ClientImportOptions) :
    List Event × OAuth2ClientExportInterface × Except ErrorValue (Option ClientObj) :=
  let (tr, bundle, errors, imported, response) :=
    importOAuth2ClientLoop env options clientId (alKeys importData.application)
      importData
  if errors.length > 0 then
    (tr, bundle,
      .error (.frodo ("Error importing " ++ realmStr ++ " oauth2 client " ++ clientId) errors))
  else if imported.length = 0 then
    (tr, bundle,
      .error (.frodo (realmStr ++ " oauth2 client " ++ clientId ++ " not found in import data!") []))
  else (tr, bundle, .ok response)

/-- `OAuth2ClientOps.importFirstOAuth2Client`: the key loop breaks after
its first iteration. -/
def importFirstOAuth2ClientM (env : Env)
    (importData : OAuth2ClientExportInterface)
    (options : OAuth2ClientImportOptions) :
    List Event × OAuth2ClientExportInterface × Except ErrorValue (Option ClientObj) :=
  match alKeys importData.application with
  | [] =>
    ([], importData, .error (.frodo "No oauth2 clients found in import data!" []))
  | id :: _ =>
    let (tr, bundle1, errs, resp) := importOAuth2ClientEntryM env options importData id
    if errs.length > 0 then
      (tr, bundle1,
        .error (.frodo ("Error importing first " ++ realmStr ++ " oauth2 client") errs))
    else
      match resp with
      | none =>
        (tr, bundle1, .error (.frodo "No oauth2 clients found in import data!" []))
      | some r => (tr, bundle1, .ok (some r))

/-- The key loop of `importOAuth2Clients`: process every key. -/
def importOAuth2ClientsLoop (env : Env) (options : OAuth2ClientImportOptions) :
    List String → OAuth2ClientExportInterface →
    List Event × OAuth2ClientExportInterface × List ErrorValue × List ClientObj
  | [], bundle => ([], bundle, [], [])
  | id :: rest, bundle =>
    let (tr, bundle1, errs, resp) := importOAuth2ClientEntryM env options bundle id
    let (trR, bundleR, errsR, respsR) :=
      importOAuth2ClientsLoop env options rest bundle1
    (tr ++ trR, bundleR, errs ++ errsR,
      (match resp with | some r => [r] | none => []) ++ respsR)

/-- `OAuth2ClientOps.importOAuth2Clients`. -/
def importOAuth2ClientsM (env : Env) (importData : OAuth2ClientExportInterface)
    (options : OAuth2ClientImportOptions) :
    List Event × OAuth2ClientExportInterface × Except ErrorValue (List ClientObj) :=
  let (tr, bundle, errors, resps) :=
    importOAuth2ClientsLoop env options (alKeys importData.application) importData
  if errors.length > 0 then
    (tr, bundle,
      .error (.frodo ("Error importing " ++ realmStr ++ " oauth2 clients") errors))
  else (tr, bundle, .ok resps)

/-! ## Event classification -/

def isPrereqWriteEv : Event → Bool
  | .putResourceTypeEv _ => true
  | .putPolicySetEv _ => true
  | _ => false

def isPolicyWriteEv : Event → Bool
  | .putPolicyEv _ _ => true
  | _ => false

def isScriptWriteEv : Event → Bool
  | .putScriptEv _ _ => true
  | _ => false

def isClientWriteEv : Event → Bool
  | .putClientEv _ _ => true
  | _ => false

/-- Every event satisfying `dep` occurs strictly after every event
satisfying `owner` in the trace. -/
def writesStrictlyAfter (owner dep : Event → Bool) (tr : List Event) : Prop :=
  ∀ i ∈ tr.findIdxs owner, ∀ j ∈ tr.findIdxs dep, i < j

instance (owner dep : Event → Bool) (tr : List Event) :
    Decidable (writesStrictlyAfter owner dep tr) := by
  unfold writesStrictlyAfter
  infer_instance

/-! ## Association-list lemmas -/

theorem alGet_cons {β : Type} (k₀ : String) (v₀ : β) (m : List (String × β))
    (k : String) :
    alGet ((k₀, v₀) :: m) k = if k₀ = k then some v₀ else alGet m k := by
  by_cases h : k₀ = k
  · simp [alGet, List.find?_cons_of_pos, h]
  · simp only [alGet, if_neg h]
    rw [List.find?_cons_of_neg]
    simp [h]

theorem alGet_mem_keys {β : Type} (m : List (String × β)) (k : String)
    (h : k ∈ alKeys m) : ∃ v, alGet m k = some v := by
  induction m with
  | nil => simp [alKeys] at h
  | cons kv rest ih =>
    rcases kv with ⟨k₀, v₀⟩
    rw [alGet_cons]
    by_cases hk : k₀ = k
    · exact ⟨v₀, by rw [if_pos hk]⟩
    · simp only [alKeys, List.map_cons, List.mem_cons] at h
      rcases h with h | h
      · exact absurd h.symm hk
      · rw [if_neg hk]; exact ih h

theorem alGet_not_mem_keys {β : Type} (m : List (String × β)) (k : String)
    (h : k ∉ alKeys m) : alGet m k = none := by
  induction m with
  | nil => rfl
  | cons kv rest ih =>
    rcases kv with ⟨k₀, v₀⟩
    simp only [alKeys, List.map_cons, List.mem_cons, not_or] at h
    rw [alGet_cons, if_neg (fun he => h.1 he.symm)]
    exact ih h.2

theorem alGet_map_set_self {β : Type} (k : String) (v : β) :
    ∀ m : List (String × β), (m.any (fun kv => kv.1 = k)) = true →
      alGet (m.map (fun kv => if kv.1 = k then (k, v) else kv)) k = some v := by
  intro m
  induction m with
  | nil => intro h; simp at h
  | cons kv rest ih =>
    rcases kv with ⟨k₀, v₀⟩
    intro hany
    by_cases hk : k₀ = k
    · simp [List.map_cons, if_pos hk, alGet_cons]
    · simp only [List.any_cons, decide_eq_true_eq, hk, Bool.false_or,
        decide_eq_true_eq] at hany
      simp only [List.map_cons, if_neg hk, alGet_cons, if_neg hk]
      exact ih (by simpa using hany)

theorem alGet_map_set_ne {β : Type} (k k' : String) (v : β) (h : k' ≠ k) :
    ∀ m : List (String × β),
      alGet (m.map (fun kv => if kv.1 = k then (k, v) else kv)) k' = alGet m k' := by
  intro m
  induction m with
  | nil => rfl
  | cons kv rest ih =>
    rcases kv with ⟨k₀, v₀⟩
    by_cases hk : k₀ = k
    · simp only [List.map_cons, if_pos hk, alGet_cons,
        if_neg (fun he : k = k' => h he.symm), if_neg (fun he : k₀ = k' => h (hk ▸ he).symm)]
      exact ih
    · simp only [List.map_cons, if_neg hk, alGet_cons]
      by_cases hk' : k₀ = k'
      · rw [if_pos hk', if_pos hk']
      · rw [if_neg hk', if_neg hk']
        exact ih

theorem alGet_append_single_self {β : Type} (k : String) (v : β) :
    ∀ m : List (String × β), (m.any (fun kv => kv.1 = k)) = false →
      alGet (m ++ [(k, v)]) k = some v := by
  intro m
  induction m with
  | nil => intro; simp [alGet_cons]
  | cons kv rest ih =>
    rcases kv with ⟨k₀, v₀⟩
    intro hany
    simp only [List.any_cons, Bool.or_eq_false_iff, decide_eq_false_iff_not] at hany
    simp only [List.cons_append, alGet_cons, if_neg hany.1]
    exact ih (by simp [hany.2])

theorem alGet_append_single_ne {β : Type} (k k' : String) (v : β) (h : k' ≠ k) :
    ∀ m : List (String × β), alGet (m ++ [(k, v)]) k' = alGet m k' := by
  intro m
  induction m with
  | nil =>
    rw [List.nil_append, alGet_cons, if_neg (fun he : k = k' => h he.symm)]
  | cons kv rest ih =>
    rcases kv with ⟨k₀, v₀⟩
    simp only [List.cons_append, alGet_cons]
    by_cases hk' : k₀ = k'
    · rw [if_pos hk', if_pos hk']
    · rw [if_neg hk', if_neg hk']
      exact ih

theorem alGet_alSet_self {β : Type} (m : List (String × β)) (k : String) (v : β) :
    alGet (alSet m k v) k = some v := by
  unfold alSet
  by_cases hany : m.any (fun kv => kv.1 = k)
  · rw [if_pos hany]
    exact alGet_map_set_self k v m hany
  · rw [if_neg hany]
    exact alGet_append_single_self k v m (Bool.eq_false_iff.mpr hany)

theorem alGet_alSet_ne {β : Type} (m : List (String × β)) (k k' : String) (v : β)
    (h : k' ≠ k) : alGet (alSet m k v) k' = alGet m k' := by
  unfold alSet
  by_cases hany : m.any (fun kv => kv.1 = k)
  · rw [if_pos hany]
    exact alGet_map_set_ne k k' v h m
  · rw [if_neg hany]
    exact alGet_append_single_ne k k' v h m

/-- The canonical remotely-stored policy of the benign environment. -/
def envOkPolicy (id : String) : PolicySkeleton :=
  { _id := id, _rev := none, name := some id, resourceTypeUuid := none,
    applicationName := none, condition := none }

/-- A benign environment: every read succeeds with a canonical object and
every write succeeds. -/
def envOk : Env :=
  { getPolicyRes := fun id => .ok (envOkPolicy id)
    getPoliciesRes := .ok []
    getPoliciesByPolicySetRes := fun _ => .ok []
    getResourceTypeRes := fun u => .ok { _id := u }
    readPolicySetRes := fun n => .ok { name := n }
    readScriptRes := fun s => .ok { _id := optStr s, script := .raw "scripttext" }
    getClientRes := fun id => .ok [("_id", .str id)]
    getClientsRes := .ok []
    readProviderRes := .ok (.obj [])
    putRes := fun _ => none }

theorem alKeys_alSet_of_mem {β : Type} (m : List (String × β)) (k : String) (v : β)
    (h : k ∈ alKeys m) : alKeys (alSet m k v) = alKeys m := by
  unfold alSet
  have hany : m.any (fun kv => kv.1 = k) := by
    simp only [List.any_eq_true, decide_eq_true_eq]
    rcases List.mem_map.mp h with ⟨kv, hkv, hk⟩
    exact ⟨kv, hkv, hk⟩
  simp only [if_pos hany, alKeys, List.map_map]
  apply List.map_congr_left
  intro kv _
  by_cases hk : kv.1 = k
  · simp [hk]
  · simp [hk]

/-! ## Policy import loop lemmas -/

theorem importPolicyDepsLoop_trace (env : Env) (pid : String)
    (ed : PolicyExportInterface) :
    ∀ uuids : List (Option String),
      (importPolicyDependenciesLoop env pid ed uuids).1 =
        uuids.map (fun u => Event.putScriptEv u (u.bind (fun s => alGet ed.script s))) := by
  intro uuids
  induction uuids with
  | nil => rfl
  | cons u rest ih =>
    simp only [importPolicyDependenciesLoop, updateScriptM]
    cases hout : env.putRes (Event.putScriptEv u (u.bind (fun s => alGet ed.script s))) with
    | none => simp [ih]
    | some e => simp [ih]

theorem importPolicyDepsM_trace (env : Env) (p : PolicySkeleton)
    (ed : PolicyExportInterface) :
    (importPolicyDependenciesM env p ed).1 =
      (findScriptUuids p.condition).map
        (fun u => Event.putScriptEv u (u.bind (fun s => alGet ed.script s))) := by
  have hl := importPolicyDepsLoop_trace env p._id ed (findScriptUuids p.condition)
  simp only [importPolicyDependenciesM]
  rcases hloop : importPolicyDependenciesLoop env p._id ed (findScriptUuids p.condition)
    with ⟨tr, errs⟩
  rw [hloop] at hl
  cases errs with
  | nil => simpa using hl
  | cons e es => simpa using hl

theorem importPolicyDeps_events (env : Env) (p : PolicySkeleton)
    (ed : PolicyExportInterface) :
    ∀ ev ∈ (importPolicyDependenciesM env p ed).1, isScriptWriteEv ev = true := by
  intro ev hev
  rw [importPolicyDepsM_trace] at hev
  rcases List.mem_map.mp hev with ⟨u, _, rfl⟩
  rfl

theorem importPolicyPrereqRT_events (env : Env) (p : PolicySkeleton)
    (ed : PolicyExportInterface) :
    ∀ ev ∈ (importPolicyPrereqRT env p ed).1, isPrereqWriteEv ev = true := by
  intro ev hev
  simp only [importPolicyPrereqRT, updateResourceTypeM] at hev
  rcases hu : p.resourceTypeUuid with _ | uuid <;> simp only [hu] at hev
  · simp at hev
  · rcases halg : alGet ed.resourcetype uuid with _ | rt <;> simp only [halg] at hev
    · simp at hev
    · cases hout : env.putRes (Event.putResourceTypeEv uuid) <;>
        simp only [hout, List.mem_singleton] at hev <;> subst hev <;> rfl

theorem importPolicyPrereqPS_events (env : Env) (p : PolicySkeleton)
    (ed : PolicyExportInterface) :
    ∀ ev ∈ (importPolicyPrereqPS env p ed).1, isPrereqWriteEv ev = true := by
  intro ev hev
  simp only [importPolicyPrereqPS, updatePolicySetM] at hev
  rcases hu : p.applicationName with _ | app <;> simp only [hu] at hev
  · simp at hev
  · rcases halg : alGet ed.policyset app with _ | ps <;> simp only [halg] at hev
    · simp at hev
    · cases hout : env.putRes (Event.putPolicySetEv app) <;>
        simp only [hout, List.mem_singleton] at hev <;> subst hev <;> rfl

theorem importPolicyPrereqsM_trace (env : Env) (p : PolicySkeleton)
    (ed : PolicyExportInterface) :
    (importPolicyPrerequisitesM env p ed).1 =
      (importPolicyPrereqRT env p ed).1 ++ (importPolicyPrereqPS env p ed).1 := by
  simp only [importPolicyPrerequisitesM]
  rcases hA : importPolicyPrereqRT env p ed with ⟨tr1, errs1⟩
  rcases hB : importPolicyPrereqPS env p ed with ⟨tr2, errs2⟩
  cases herrs : errs1 ++ errs2 <;> simp

theorem importPolicyPrereqs_events (env : Env) (p : PolicySkeleton)
    (ed : PolicyExportInterface) :
    ∀ ev ∈ (importPolicyPrerequisitesM env p ed).1, isPrereqWriteEv ev = true := by
  intro ev hev
  rw [importPolicyPrereqsM_trace] at hev
  rcases List.mem_append.mp hev with h | h
  · exact importPolicyPrereqRT_events env p ed ev h
  · exact importPolicyPrereqPS_events env p ed ev h

theorem runPrereqStep_trace (env : Env) (o : PolicyImportOptions)
    (p2 : PolicySkeleton) (b1 : PolicyExportInterface) :
    (runPrereqStep env o p2 b1).1 =
      (if o.prereqs then (importPolicyPrerequisitesM env p2 b1).1 else []) := by
  unfold runPrereqStep
  by_cases hp : o.prereqs = true
  · rw [if_pos hp, if_pos hp]
    rcases hP : importPolicyPrerequisitesM env p2 b1 with ⟨tr, out⟩
    cases out <;> rfl
  · rw [if_neg hp, if_neg hp]

theorem runDepsStep_trace (env : Env) (o : PolicyImportOptions)
    (p2 : PolicySkeleton) (b1 : PolicyExportInterface) :
    (runDepsStep env o p2 b1).1 =
      (if o.deps then (importPolicyDependenciesM env p2 b1).1 else []) := by
  unfold runDepsStep
  by_cases hd : o.deps = true
  · rw [if_pos hd, if_pos hd]
    rcases hD : importPolicyDependenciesM env p2 b1 with ⟨tr, out⟩
    cases out <;> rfl
  · rw [if_neg hd, if_neg hd]

theorem runUpdateStep_trace (env : Env) (p2 : PolicySkeleton) :
    (runUpdateStep env p2).1 = [Event.putPolicyEv p2._id p2] := by
  simp only [runUpdateStep, updatePolicyM]
  cases env.putRes (Event.putPolicyEv p2._id p2) <;> rfl

theorem runPrereqStep_events (env : Env) (o : PolicyImportOptions)
    (p2 : PolicySkeleton) (b1 : PolicyExportInterface) :
    ∀ ev ∈ (runPrereqStep env o p2 b1).1, isPrereqWriteEv ev = true := by
  intro ev hev
  rw [runPrereqStep_trace] at hev
  by_cases hp : o.prereqs = true
  · rw [if_pos hp] at hev
    exact importPolicyPrereqs_events env p2 b1 ev hev
  · rw [if_neg hp] at hev
    simp at hev

theorem runDepsStep_events (env : Env) (o : PolicyImportOptions)
    (p2 : PolicySkeleton) (b1 : PolicyExportInterface) :
    ∀ ev ∈ (runDepsStep env o p2 b1).1, isScriptWriteEv ev = true := by
  intro ev hev
  rw [runDepsStep_trace] at hev
  by_cases hd : o.deps = true
  · rw [if_pos hd] at hev
    exact importPolicyDeps_events env p2 b1 ev hev
  · rw [if_neg hd] at hev
    simp at hev

theorem importPolicyEntryM_some (env : Env) (o : PolicyImportOptions)
    (b : PolicyExportInterface) (id : String) (p0 : PolicySkeleton)
    (halg : alGet b.policy id = some p0) :
    importPolicyEntryM env o b id =
      ((runPrereqStep env o (stripPolicyEntry o p0)
          { b with policy := alSet b.policy id (stripPolicyEntry o p0) }).1 ++
        (runUpdateStep env (stripPolicyEntry o p0)).1 ++
        (runDepsStep env o (stripPolicyEntry o p0)
          { b with policy := alSet b.policy id (stripPolicyEntry o p0) }).1,
       { b with policy := alSet b.policy id (stripPolicyEntry o p0) },
       (runPrereqStep env o (stripPolicyEntry o p0)
          { b with policy := alSet b.policy id (stripPolicyEntry o p0) }).2 ++
        (runUpdateStep env (stripPolicyEntry o p0)).2.1 ++
        (runDepsStep env o (stripPolicyEntry o p0)
          { b with policy := alSet b.policy id (stripPolicyEntry o p0) }).2,
       (runUpdateStep env (stripPolicyEntry o p0)).2.2) := by
  simp only [importPolicyEntryM, halg]

theorem importPolicyEntryM_none (env : Env) (o : PolicyImportOptions)
    (b : PolicyExportInterface) (id : String)
    (halg : alGet b.policy id = none) :
    importPolicyEntryM env o b id = ([], b, [.plain "TypeError"], none) := by
  simp only [importPolicyEntryM, halg]

theorem importPolicyLoop_not_mem (env : Env) (o : PolicyImportOptions) (pid : String) :
    ∀ (ks : List String) (b : PolicyExportInterface), pid ∉ ks →
      importPolicyLoop env o pid ks b = ([], b, [], [], none) := by
  intro ks
  induction ks with
  | nil => intro b _; rfl
  | cons id rest ih =>
    intro b hmem
    have hid : ¬(id = pid) := fun h => hmem (h ▸ List.mem_cons_self id rest)
    simp only [importPolicyLoop, if_neg hid]
    exact ih b (fun h => hmem (List.mem_cons_of_mem _ h))

theorem importPolicyLoop_single (env : Env) (o : PolicyImportOptions) (pid : String) :
    ∀ (ks : List String) (b : PolicyExportInterface), ks.Nodup → pid ∈ ks →
      importPolicyLoop env o pid ks b =
        ((importPolicyEntryM env o b pid).1,
         (importPolicyEntryM env o b pid).2.1,
         (importPolicyEntryM env o b pid).2.2.1,
         (match (importPolicyEntryM env o b pid).2.2.2 with
          | some _ => [pid]
          | none => []),
         (importPolicyEntryM env o b pid).2.2.2) := by
  intro ks
  induction ks with
  | nil => intro b _ h; simp at h
  | cons id rest ih =>
    intro b hnd hmem
    by_cases hid : id = pid
    · subst hid
      have hrest : id ∉ rest := (List.nodup_cons.mp hnd).1
      simp only [importPolicyLoop, if_pos rfl]
      rcases hE : importPolicyEntryM env o b id with ⟨tr, b1, errs, resp⟩
      rw [importPolicyLoop_not_mem env o id rest b1 hrest]
      cases resp <;> simp
    · rcases List.mem_cons.mp hmem with h | h
      · exact absurd h.symm hid
      · simp only [importPolicyLoop, if_neg hid]
        exact ih b (List.nodup_cons.mp hnd).2 h

theorem importPolicyM_comps (env : Env) (pid : String)
    (b : PolicyExportInterface) (o : PolicyImportOptions) :
    (importPolicyM env pid b o).1 =
      (importPolicyLoop env o pid (alKeys b.policy) b).1 ∧
    (importPolicyM env pid b o).2.1 =
      (importPolicyLoop env o pid (alKeys b.policy) b).2.1 := by
  simp only [importPolicyM]
  rcases h : importPolicyLoop env o pid (alKeys b.policy) b with
    ⟨tr, bundle, errs, imp, resp⟩
  by_cases h1 : errs.length > 0
  · simp [h1]
  · simp only [h1, if_false]
    by_cases h2 : imp.length = 0 <;> simp [h2]

/-! ## C9: override-config script references -/

theorem importDepsLoop_sound (env : Env) (importData : OAuth2ClientExportInterface) :
    ∀ attrs : List (String × String),
      ∀ ev ∈ (importOAuth2ClientDependenciesLoop env importData attrs).1,
        ∃ k v sd, (k, v) ∈ attrs ∧ strEndsWith k "Script" = true ∧ v ≠ "[Empty]" ∧
          alGet importData.script v = some sd ∧
          ev = Event.putScriptEv (some v) (some sd) := by
  intro attrs
  induction attrs with
  | nil => intro ev hev; simp [importOAuth2ClientDependenciesLoop] at hev
  | cons kv rest ih =>
    rcases kv with ⟨k, v⟩
    intro ev hev
    simp only [importOAuth2ClientDependenciesLoop] at hev
    have extend : (∃ k' v' sd, (k', v') ∈ rest ∧ strEndsWith k' "Script" = true ∧
        v' ≠ "[Empty]" ∧ alGet importData.script v' = some sd ∧
        ev = Event.putScriptEv (some v') (some sd)) →
        ∃ k' v' sd, (k', v') ∈ (k, v) :: rest ∧ strEndsWith k' "Script" = true ∧
          v' ≠ "[Empty]" ∧ alGet importData.script v' = some sd ∧
          ev = Event.putScriptEv (some v') (some sd) := by
      rintro ⟨k', v', sd, hm, h1, h2, h3, h4⟩
      exact ⟨k', v', sd, List.mem_cons_of_mem _ hm, h1, h2, h3, h4⟩
    by_cases hk : strEndsWith k "Script" = true
    · rw [if_pos hk] at hev
      by_cases hv : v = "[Empty]"
      · rw [if_neg (not_not_intro hv)] at hev
        exact extend (ih ev hev)
      · rw [if_pos hv] at hev
        cases halg : alGet importData.script v with
        | none =>
          rw [halg] at hev
          exact extend (ih ev hev)
        | some sd =>
          rw [halg] at hev
          simp only [updateScriptM] at hev
          cases hout : env.putRes (Event.putScriptEv (some v) (some sd)) with
          | some e =>
            rw [hout] at hev
            simp only [List.mem_singleton] at hev
            exact ⟨k, v, sd, List.mem_cons_self _ _, hk, hv, halg, hev⟩
          | none =>
            rw [hout] at hev
            simp only [List.cons_append, List.nil_append, List.mem_cons] at hev
            rcases hev with hev | hev
            · exact ⟨k, v, sd, List.mem_cons_self _ _, hk, hv, halg, hev⟩
            · exact extend (ih ev hev)
    · rw [if_neg hk] at hev
      exact extend (ih ev hev)

theorem importDepsLoop_complete (env : Env) (importData : OAuth2ClientExportInterface)
    (hok : ∀ v sd, alGet importData.script v = some sd →
      env.putRes (Event.putScriptEv (some v) (some sd)) = none) :
    ∀ attrs : List (String × String),
      importOAuth2ClientDependenciesLoop env importData attrs =
        (attrs.filterMap (fun kv =>
          if strEndsWith kv.1 "Script" = true ∧ kv.2 ≠ "[Empty]" then
            (alGet importData.script kv.2).map
              (fun sd => Event.putScriptEv (some kv.2) (some sd))
          else none), none) := by
  intro attrs
  induction attrs with
  | nil => rfl
  | cons kv rest ih =>
    rcases kv with ⟨k, v⟩
    simp only [importOAuth2ClientDependenciesLoop, List.filterMap_cons]
    by_cases hk : strEndsWith k "Script" = true
    · by_cases hv : v = "[Empty]"
      · rw [if_pos hk, if_neg (not_not_intro hv),
          if_neg (show ¬(strEndsWith k "Script" = true ∧ v ≠ "[Empty]") from
            fun h => h.2 hv), ih]
      · rw [if_pos hk, if_pos hv, if_pos (And.intro hk hv)]
        cases halg : alGet importData.script v with
        | none => rw [ih]; rfl
        | some sd =>
          simp only [updateScriptM, hok v sd halg, ih, Option.map_some']
          rfl
    · rw [if_neg hk,
        if_neg (show ¬(strEndsWith k "Script" = true ∧ v ≠ "[Empty]") from
          fun h => hk h.1), ih]

theorem exportDepsLoop_sound (env : Env) (o : OAuth2ClientExportOptions)
    (cid : String) :
    ∀ attrs : List (String × String), ∀ ed : OAuth2ClientExportInterface,
      ∀ ev ∈ (exportOAuth2ClientDependenciesLoop env o cid attrs ed).1,
        ∃ k v, (k, v) ∈ attrs ∧ strEndsWith k "Script" = true ∧ v ≠ "[Empty]" ∧
          ev = Event.readScriptEv (some v) := by
  intro attrs
  induction attrs with
  | nil => intro ed ev hev; simp [exportOAuth2ClientDependenciesLoop] at hev
  | cons kv rest ih =>
    rcases kv with ⟨k, v⟩
    intro ed ev hev
    simp only [exportOAuth2ClientDependenciesLoop] at hev
    have extend : (∃ k' v', (k', v') ∈ rest ∧ strEndsWith k' "Script" = true ∧
        v' ≠ "[Empty]" ∧ ev = Event.readScriptEv (some v')) →
        ∃ k' v', (k', v') ∈ (k, v) :: rest ∧ strEndsWith k' "Script" = true ∧
          v' ≠ "[Empty]" ∧ ev = Event.readScriptEv (some v') := by
      rintro ⟨k', v', hm, h1, h2, h3⟩
      exact ⟨k', v', List.mem_cons_of_mem _ hm, h1, h2, h3⟩
    by_cases hk : strEndsWith k "Script" = true
    · rw [if_pos hk] at hev
      by_cases hv : v = "[Empty]"
      · rw [if_pos hv] at hev
        exact extend (ih ed ev hev)
      · rw [if_neg hv] at hev
        cases halg : alGet ed.script v with
        | some sd =>
          rw [halg] at hev
          exact extend (ih ed ev hev)
        | none =>
          rw [halg] at hev
          simp only [readScriptM] at hev
          cases hres : env.readScriptRes (some v) with
          | ok sd =>
            rw [hres] at hev
            simp only [List.cons_append, List.nil_append, List.mem_cons] at hev
            rcases hev with hev | hev
            · exact ⟨k, v, List.mem_cons_self _ _, hk, hv, hev⟩
            · exact extend (ih _ ev hev)
          | error e =>
            by_cases hsig : httpStatus e = some 403 ∧ httpMessage e = some capabilityMsg
            · simp only [hres, if_pos hsig, List.cons_append, List.nil_append,
                List.mem_cons] at hev
              rcases hev with hev | hev
              · exact ⟨k, v, List.mem_cons_self _ _, hk, hv, hev⟩
              · exact extend (ih ed ev hev)
            · simp only [hres, if_neg hsig, List.mem_singleton] at hev
              exact ⟨k, v, List.mem_cons_self _ _, hk, hv, hev⟩
    · rw [if_neg hk] at hev
      exact extend (ih ed ev hev)

/-- The suffixed, non-sentinel reference values of an override map. -/
def overrideScriptRefs (attrs : List (String × String)) : List String :=
  attrs.filterMap (fun kv =>
    if strEndsWith kv.1 "Script" = true ∧ kv.2 ≠ "[Empty]" then some kv.2 else none)

theorem exportDepsLoop_complete (env : Env) (o : OAuth2ClientExportOptions)
    (cid : String) :
    ∀ attrs : List (String × String), ∀ ed : OAuth2ClientExportInterface,
      (∀ v ∈ overrideScriptRefs attrs, alGet ed.script v = none) →
      (∀ v ∈ overrideScriptRefs attrs, ∃ sd, env.readScriptRes (some v) = .ok sd) →
      (overrideScriptRefs attrs).Nodup →
      (exportOAuth2ClientDependenciesLoop env o cid attrs ed).1 =
        (overrideScriptRefs attrs).map (fun v => Event.readScriptEv (some v)) ∧
      (exportOAuth2ClientDependenciesLoop env o cid attrs ed).2.2 = none := by
  intro attrs
  induction attrs with
  | nil => intro ed _ _ _; exact ⟨rfl, rfl⟩
  | cons kv rest ih =>
    rcases kv with ⟨k, v⟩
    intro ed habs hok hnd
    by_cases hrel : strEndsWith k "Script" = true ∧ v ≠ "[Empty]"
    · have hrefs : overrideScriptRefs ((k, v) :: rest) = v :: overrideScriptRefs rest := by
        simp [overrideScriptRefs, List.filterMap_cons, if_pos hrel]
      rw [hrefs] at habs hok hnd
      have hedv : alGet ed.script v = none := habs v (List.mem_cons_self _ _)
      rcases hok v (List.mem_cons_self _ _) with ⟨sd, hsd⟩
      have hnd' := List.nodup_cons.mp hnd
      simp only [exportOAuth2ClientDependenciesLoop, if_pos hrel.1, if_neg hrel.2,
        hedv, readScriptM, hsd, hrefs, List.map_cons]
      set sd1 := if o.useStringArrays then
          { sd with script := .lines (convertBase64TextToArray sd.script) } else sd with hsd1
      have ih' := ih { ed with script := alSet ed.script v sd1 }
        (fun v' hv' => by
          rw [alGet_alSet_ne _ _ _ _ (by intro he; subst he; exact hnd'.1 hv')]
          exact habs v' (List.mem_cons_of_mem _ hv'))
        (fun v' hv' => hok v' (List.mem_cons_of_mem _ hv'))
        hnd'.2
      refine ⟨?_, ih'.2⟩
      rw [List.cons_append, List.nil_append, ih'.1]
    · have hrefs : overrideScriptRefs ((k, v) :: rest) = overrideScriptRefs rest := by
        simp [overrideScriptRefs, List.filterMap_cons, if_neg hrel]
      rw [hrefs] at habs hok hnd
      by_cases hk : strEndsWith k "Script" = true
      · have hv : ¬ v ≠ "[Empty]" := fun hv => hrel ⟨hk, hv⟩
        simp only [exportOAuth2ClientDependenciesLoop, if_pos hk,
          if_pos (not_not.mp hv), hrefs]
        exact ih ed habs hok hnd
      · simp only [exportOAuth2ClientDependenciesLoop, if_neg hk, hrefs]
        exact ih ed habs hok hnd

/-! ## OAuth2 client entry and loop lemmas -/

theorem updateOAuth2ClientM_events (env : Env) (id : String) (d : ClientObj) :
    ∀ ev ∈ (updateOAuth2ClientM env id d).1, isClientWriteEv ev = true := by
  intro ev hev
  unfold updateOAuth2ClientM at hev
  cases hout : env.putRes (Event.putClientEv id d) <;> simp only [hout] at hev
  · simp at hev
    subst hev
    rfl
  · rename_i e
    by_cases hsig : responseStatus e = some 400 ∧ responseMessage e = some invalidAttrMsg
    · rw [if_pos hsig] at hev
      rcases hva : responseValidAttributes e with _ | va <;> simp only [hva] at hev
      · simp at hev
        subst hev
        rfl
      · cases hout2 : env.putRes
          (Event.putClientEv id (stripInvalidAttrs (va ++ ["_id"]) d)) <;>
          simp only [hout2] at hev <;> simp at hev <;>
          rcases hev with rfl | rfl <;> rfl
    · rw [if_neg hsig] at hev
      simp at hev
      subst hev
      rfl

theorem importOAuth2ClientDepsM_events (env : Env) (cd : ClientObj)
    (b : OAuth2ClientExportInterface) :
    ∀ ev ∈ (importOAuth2ClientDependenciesM env cd b).1, isScriptWriteEv ev = true := by
  intro ev hev
  unfold importOAuth2ClientDependenciesM at hev
  rcases halg : alGet cd "overrideOAuth2ClientConfig" with _ | f <;>
    simp only [halg] at hev
  · simp at hev
  · cases f with
    | str s => simp at hev
    | obj attrs =>
      rcases importDepsLoop_sound env b attrs ev hev with ⟨k, v, sd, _, _, _, _, rfl⟩
      rfl

theorem importOAuth2ClientEntryM_trace (env : Env) (o : OAuth2ClientImportOptions)
    (b : OAuth2ClientExportInterface) (id : String) :
    ∃ pre rest, (importOAuth2ClientEntryM env o b id).1 = pre ++ rest ∧
      (∀ ev ∈ pre, isScriptWriteEv ev = true) ∧
      (∀ ev ∈ rest, isClientWriteEv ev = true) := by
  unfold importOAuth2ClientEntryM
  rcases halg : alGet b.application id with _ | c0 <;> simp only
  · exact ⟨[], [], rfl, by simp, by simp⟩
  · set c1 := stripClientEntry c0 with hc1
    set b1 := { b with application := alSet b.application id c1 } with hb1
    by_cases hd : o.deps = true <;> simp only [hd, if_true, if_false]
    · rcases hD : importOAuth2ClientDependenciesM env c1 b1 with ⟨trD, out⟩
      cases out with
      | some e =>
        refine ⟨trD, [], by simp, ?_, by simp⟩
        intro ev hev
        exact importOAuth2ClientDepsM_events env c1 b1 ev (by rw [hD]; exact hev)
      | none =>
        rcases hU : updateOAuth2ClientM env id c1 with ⟨trU, cf, res⟩
        refine ⟨trD, trU, ?_, ?_, ?_⟩
        · cases res <;> rfl
        · intro ev hev
          exact importOAuth2ClientDepsM_events env c1 b1 ev (by rw [hD]; exact hev)
        · intro ev hev
          exact updateOAuth2ClientM_events env id c1 ev (by rw [hU]; exact hev)
    · rcases hU : updateOAuth2ClientM env id c1 with ⟨trU, cf, res⟩
      refine ⟨[], trU, ?_, by simp, ?_⟩
      · cases res <;> rfl
      · intro ev hev
        exact updateOAuth2ClientM_events env id c1 ev (by rw [hU]; exact hev)

theorem importOAuth2ClientLoop_not_mem (env : Env) (o : OAuth2ClientImportOptions)
    (cid : String) :
    ∀ (ks : List String) (b : OAuth2ClientExportInterface), cid ∉ ks →
      importOAuth2ClientLoop env o cid ks b = ([], b, [], [], none) := by
  intro ks
  induction ks with
  | nil => intro b _; rfl
  | cons id rest ih =>
    intro b hmem
    have hid : ¬(id = cid) := fun h => hmem (h ▸ List.mem_cons_self id rest)
    simp only [importOAuth2ClientLoop, if_neg hid]
    exact ih b (fun h => hmem (List.mem_cons_of_mem _ h))

theorem importOAuth2ClientLoop_single (env : Env) (o : OAuth2ClientImportOptions)
    (cid : String) :
    ∀ (ks : List String) (b : OAuth2ClientExportInterface), ks.Nodup → cid ∈ ks →
      importOAuth2ClientLoop env o cid ks b =
        ((importOAuth2ClientEntryM env o b cid).1,
         (importOAuth2ClientEntryM env o b cid).2.1,
         (importOAuth2ClientEntryM env o b cid).2.2.1,
         (match (importOAuth2ClientEntryM env o b cid).2.2.2 with
          | some _ => [cid]
          | none => []),
         (importOAuth2ClientEntryM env o b cid).2.2.2) := by
  intro ks
  induction ks with
  | nil => intro b _ h; simp at h
  | cons id rest ih =>
    intro b hnd hmem
    by_cases hid : id = cid
    · subst hid
      have hrest : id ∉ rest := (List.nodup_cons.mp hnd).1
      simp only [importOAuth2ClientLoop, if_pos rfl]
      rcases hE : importOAuth2ClientEntryM env o b id with ⟨tr, b1, errs, resp⟩
      rw [importOAuth2ClientLoop_not_mem env o id rest b1 hrest]
      cases resp <;> simp
    · rcases List.mem_cons.mp hmem with h | h
      · exact absurd h.symm hid
      · simp only [importOAuth2ClientLoop, if_neg hid]
        exact ih b (List.nodup_cons.mp hnd).2 h

theorem importOAuth2ClientM_comps (env : Env) (cid : String)
    (b : OAuth2ClientExportInterface) (o : OAuth2ClientImportOptions) :
    (importOAuth2ClientM env cid b o).1 =
      (importOAuth2ClientLoop env o cid (alKeys b.application) b).1 ∧
    (importOAuth2ClientM env cid b o).2.1 =
      (importOAuth2ClientLoop env o cid (alKeys b.application) b).2.1 := by
  simp only [importOAuth2ClientM]
  rcases h : importOAuth2ClientLoop env o cid (alKeys b.application) b with
    ⟨tr, bundle, errs, imp, resp⟩
  by_cases h1 : errs.length > 0
  · simp [h1]
  · simp only [h1, if_false]
    by_cases h2 : imp.length = 0 <;> simp [h2]


def c9Script : ScriptSkeleton := { _id := "s1", script := .raw "scripttext" }

def c9Client : ClientObj :=
  [("_id", .str "c1"),
   ("overrideOAuth2ClientConfig",
     .obj [("aScript", "s1"), ("bScript", "[Empty]"), ("cname", "x"),
           ("dScript", "missing")])]

def c9Bundle : OAuth2ClientExportInterface :=
  { script := [("s1", c9Script)], application := [("c1", c9Client)] }

/-! ## C10: create probes treat any read failure as absence -/

/-- C10: in `createPolicy` and `createOAuth2Client`, a successful
pre-existence probe raises the `already exists` error with no write
performed; any probe failure (not only NotFound) proceeds to the
unconditional update, whose success is returned. -/
theorem create_probe_semantics :
    (∀ (env : Env) (id : String) (d : PolicySkeleton),
      (∀ q, env.getPolicyRes id = .ok q →
        createPolicyM env id d =
          ([Event.getPolicyEv id],
            .error (.plain ("Policy " ++ id ++ " already exists!")))) ∧
      (∀ e, env.getPolicyRes id = .error e →
        (createPolicyM env id d).1 = [Event.getPolicyEv id, Event.putPolicyEv id d] ∧
        (env.putRes (Event.putPolicyEv id d) = none →
          (createPolicyM env id d).2 = .ok d))) ∧
    (∀ (env : Env) (id : String) (d : ClientObj),
      (∀ q, env.getClientRes id = .ok q →
        createOAuth2ClientM env id d =
          ([Event.getClientEv id],
            .error (.frodo (realmStr ++ " oAuth2 client " ++ id ++ " already exists!") []))) ∧
      (∀ e, env.getClientRes id = .error e →
        (createOAuth2ClientM env id d).1 =
          Event.getClientEv id :: (updateOAuth2ClientM env id d).1 ∧
        (env.putRes (Event.putClientEv id d) = none →
          (createOAuth2ClientM env id d).2 = .ok d))) := by
  constructor
  · intro env id d
    constructor
    · intro q hq
      simp [createPolicyM, hq]
    · intro e he
      unfold createPolicyM
      rw [he]
      constructor
      · cases hput : env.putRes (Event.putPolicyEv id d) <;> simp [hput]
      · intro hput
        simp [hput]
  · intro env id d
    constructor
    · intro q hq
      simp [createOAuth2ClientM, hq]
    · intro e he
      unfold createOAuth2ClientM
      rw [he]
      constructor
      · rcases hu : updateOAuth2ClientM env id d with ⟨tr, cf, res⟩
        cases res <;> simp [hu]
      · intro hput
        have hupd : updateOAuth2ClientM env id d = ([Event.putClientEv id d], d, .ok d) := by
          simp only [updateOAuth2ClientM]
          rw [hput]
        simp [hupd]

def wPolicy : PolicySkeleton :=
  { _id := "p1", _rev := none, name := some "p1", resourceTypeUuid := none,
    applicationName := none, condition := none }

def envNoReads : Env :=
  { envOk with
    getPolicyRes := fun _ => .error (.plain "transport failure")
    getClientRes := fun _ => .error (.plain "transport failure") }

theorem create_probe_semantics_witness :
    createPolicyM envOk "p1" wPolicy =
      ([Event.getPolicyEv "p1"], .error (.plain "Policy p1 already exists!")) ∧
    (createPolicyM envNoReads "p1" wPolicy).2 = .ok wPolicy ∧
    (createOAuth2ClientM envNoReads "c1" [("_id", .str "c1")]).2 =
      .ok [("_id", .str "c1")] :=
  ⟨(create_probe_semantics.1 envOk "p1" wPolicy).1 _ rfl,
   ((create_probe_semantics.1 envNoReads "p1" wPolicy).2 (.plain "transport failure") rfl).2 rfl,
   ((create_probe_semantics.2 envNoReads "c1" [("_id", .str "c1")]).2
      (.plain "transport failure") rfl).2 rfl⟩

/-! ## C7: the OAuth2 invalid-attribute repair -/

def c7Orig : ErrorValue := .http 400 invalidAttrMsg (some ["grantTypes"])

def c7Retry : ErrorValue := .http 500 "Internal Server Error" none

def c7Client : ClientObj :=
  [("_id", .str "c1"),
   ("coreOAuth2ClientConfig", .obj [("grantTypes", "code"), ("bogusAttr", "x")])]

def c7Stripped : ClientObj :=
  [("_id", .str "c1"), ("coreOAuth2ClientConfig", .obj [("grantTypes", "code")])]

/-- First put rejected with the invalid-attribute signal, the repaired
retry rejected with a different error. -/
def envC7 : Env :=
  { envOk with putRes := fun ev =>
      match ev with
      | .putClientEv _ d => if d = c7Client then some c7Orig else some c7Retry
      | _ => none }

/-- C7 counterexample: when the single repair retry also fails, the error
surfaced to the caller wraps the retry rejection `c7Retry`, not the
original `Invalid attribute specified.` rejection `c7Orig` — refuting the
claim that the original failure is surfaced. -/
theorem updateOAuth2Client_surfaces_retry_error :
    (updateOAuth2ClientM envC7 "c1" c7Client).2.2 =
      .error (.frodo ("Error updating " ++ realmStr ++ " oauth2 client " ++ "c1")
        [c7Retry]) ∧
    c7Retry ≠ c7Orig := by
  refine ⟨rfl, ?_⟩
  intro h
  injection h with h1 h2 h3
  exact absurd h1 (by decide)

/-- C7 amended: `updateOAuth2Client` puts the client; on the specific 400
`Invalid attribute specified.` rejection it strips, from every nested
object-valued field, each attribute not in the reported valid-attribute
list (with `_id` appended so it is always kept) and retries exactly once
— the trace never holds a third put; if the retry fails, the retry's
failure (wrapped) is surfaced, not the original; any other rejection is
propagated wrapped, without repair. -/
theorem updateOAuth2Client_repair (env : Env) (id : String) (d : ClientObj) :
    (env.putRes (Event.putClientEv id d) = none →
      updateOAuth2ClientM env id d = ([Event.putClientEv id d], d, .ok d)) ∧
    (∀ e, env.putRes (Event.putClientEv id d) = some e →
      ¬(responseStatus e = some 400 ∧ responseMessage e = some invalidAttrMsg) →
      updateOAuth2ClientM env id d =
        ([Event.putClientEv id d], d,
          .error (.frodo ("Error updating " ++ realmStr ++ " oauth2 client " ++ id) [e]))) ∧
    (∀ e va, env.putRes (Event.putClientEv id d) = some e →
      responseStatus e = some 400 → responseMessage e = some invalidAttrMsg →
      responseValidAttributes e = some va →
      (env.putRes (Event.putClientEv id (stripInvalidAttrs (va ++ ["_id"]) d)) = none →
        updateOAuth2ClientM env id d =
          ([Event.putClientEv id d,
            Event.putClientEv id (stripInvalidAttrs (va ++ ["_id"]) d)],
            stripInvalidAttrs (va ++ ["_id"]) d,
            .ok (stripInvalidAttrs (va ++ ["_id"]) d))) ∧
      (∀ e2, env.putRes (Event.putClientEv id (stripInvalidAttrs (va ++ ["_id"]) d)) = some e2 →
        updateOAuth2ClientM env id d =
          ([Event.putClientEv id d,
            Event.putClientEv id (stripInvalidAttrs (va ++ ["_id"]) d)],
            stripInvalidAttrs (va ++ ["_id"]) d,
            .error (.frodo ("Error updating " ++ realmStr ++ " oauth2 client " ++ id) [e2])))) := by
  refine ⟨?_, ?_, ?_⟩
  · intro hput
    simp only [updateOAuth2ClientM]
    rw [hput]
  · intro e hput hnot
    simp only [updateOAuth2ClientM]
    rw [hput]
    simp only [if_neg hnot]
  · intro e va hput hst hmsg hva
    simp only [updateOAuth2ClientM]
    rw [hput]
    simp only [if_pos (And.intro hst hmsg), hva]
    constructor
    · intro hput2
      rw [hput2]
    · intro e2 hput2
      rw [hput2]

/-! ## C2: write ordering on import -/

def c2Client : ClientObj :=
  [("_id", .str "c1"), ("overrideOAuth2ClientConfig", .obj [("aScript", "s1")])]

def c2Bundle : OAuth2ClientExportInterface :=
  { script := [("s1", c9Script)], application := [("c1", c2Client)] }

/-- C2 counterexample: importing a single OAuth2 client with deps: true
writes the referenced script strictly before the primary client write —
the trace is the script put followed by the client put — refuting the
claim that every script write happens strictly after the primary object
write for OAuth2 client imports. -/
theorem client_scripts_written_before_owner :
    (importOAuth2ClientM envOk "c1" c2Bundle ⟨true⟩).1 =
      [Event.putScriptEv (some "s1") (some c9Script),
       Event.putClientEv "c1" (stripClientEntry c2Client)] ∧
    ¬ writesStrictlyAfter isClientWriteEv isScriptWriteEv
        (importOAuth2ClientM envOk "c1" c2Bundle ⟨true⟩).1 := by
  constructor
  · rfl
  · intro h
    have h2 := h 1 (by decide) 0 (by decide)
    exact absurd h2 (by decide)

/-- C2 amended: for a policy import of a single object, the hard
prerequisite writes (resource type, policy set) occur strictly before the
primary policy write, and every script write occurs strictly after it; for
an OAuth2 client import, the script (soft dependency) writes occur
strictly before the primary client write. -/
theorem import_write_ordering :
    (∀ (env : Env) (o : PolicyImportOptions) (policyId : String)
        (importData : PolicyExportInterface),
      (alKeys importData.policy).Nodup → policyId ∈ alKeys importData.policy →
      ∃ pre post p2,
        (importPolicyM env policyId importData o).1 =
          pre ++ [Event.putPolicyEv (PolicySkeleton._id p2) p2] ++ post ∧
        (∀ ev ∈ pre, isPrereqWriteEv ev = true) ∧
        (∀ ev ∈ post, isScriptWriteEv ev = true)) ∧
    (∀ (env : Env) (o : OAuth2ClientImportOptions) (clientId : String)
        (importData : OAuth2ClientExportInterface),
      (alKeys importData.application).Nodup →
      clientId ∈ alKeys importData.application →
      ∃ pre rest,
        (importOAuth2ClientM env clientId importData o).1 = pre ++ rest ∧
        (∀ ev ∈ pre, isScriptWriteEv ev = true) ∧
        (∀ ev ∈ rest, isClientWriteEv ev = true)) := by
  constructor
  · intro env o policyId importData hnd hmem
    rcases alGet_mem_keys _ _ hmem with ⟨p0, halg⟩
    have htr : (importPolicyM env policyId importData o).1 =
        (importPolicyEntryM env o importData policyId).1 := by
      rw [(importPolicyM_comps env policyId importData o).1,
        importPolicyLoop_single env o policyId (alKeys importData.policy)
          importData hnd hmem]
    rw [htr, importPolicyEntryM_some env o importData policyId p0 halg]
    refine ⟨(runPrereqStep env o (stripPolicyEntry o p0)
        { importData with
          policy := alSet importData.policy policyId (stripPolicyEntry o p0) }).1,
      (runDepsStep env o (stripPolicyEntry o p0)
        { importData with
          policy := alSet importData.policy policyId (stripPolicyEntry o p0) }).1,
      stripPolicyEntry o p0, ?_, ?_, ?_⟩
    · rw [runUpdateStep_trace]
    · exact runPrereqStep_events env o _ _
    · exact runDepsStep_events env o _ _
  · intro env o clientId importData hnd hmem
    have htr : (importOAuth2ClientM env clientId importData o).1 =
        (importOAuth2ClientEntryM env o importData clientId).1 := by
      rw [(importOAuth2ClientM_comps env clientId importData o).1,
        importOAuth2ClientLoop_single env o clientId (alKeys importData.application)
          importData hnd hmem]
    rcases importOAuth2ClientEntryM_trace env o importData clientId with
      ⟨pre, rest, heq, hpre, hrest⟩
    exact ⟨pre, rest, htr ▸ heq, hpre, hrest⟩

def c2Policy : PolicySkeleton :=
  { _id := "p1", _rev := none, name := some "p1", resourceTypeUuid := some "rt1",
    applicationName := some "ps1",
    condition := some (.mk (some "Script") none none (some "s1")) }

def c2PBundle : PolicyExportInterface :=
  { script := [("s1", c9Script)],
    resourcetype := [("rt1", { _id := "rt1" })],
    policy := [("p1", c2Policy)],
    policyset := [("ps1", { name := "ps1" })] }

theorem import_write_ordering_witness :
    (∃ pre post p2,
      (importPolicyM envOk "p1" c2PBundle ⟨true, true, none⟩).1 =
        pre ++ [Event.putPolicyEv (PolicySkeleton._id p2) p2] ++ post ∧
      (∀ ev ∈ pre, isPrereqWriteEv ev = true) ∧
      (∀ ev ∈ post, isScriptWriteEv ev = true)) ∧
    (∃ pre rest,
      (importOAuth2ClientM envOk "c1" c2Bundle ⟨true⟩).1 = pre ++ rest ∧
      (∀ ev ∈ pre, isScriptWriteEv ev = true) ∧
      (∀ ev ∈ rest, isClientWriteEv ev = true)) :=
  ⟨import_write_ordering.1 envOk ⟨true, true, none⟩ "p1" c2PBundle
      (by decide) (by decide),
   import_write_ordering.2 envOk ⟨true⟩ "c1" c2Bundle (by decide) (by decide)⟩

/-! ## C3: missing script references on import -/

def c3Policy : PolicySkeleton :=
  { _id := "p1", _rev := none, name := some "p1", resourceTypeUuid := none,
    applicationName := none,
    condition := some (.mk (some "Script") none none (some "s1")) }

def c3Bundle : PolicyExportInterface :=
  { script := [], resourcetype := [], policy := [("p1", c3Policy)], policyset := [] }

/-- C3 counterexample: a policy import with deps: true whose policy
references script s1, absent from the bundle script collection, calls
updateScript for s1 with an undefined payload — a write IS attempted for
the missing reference, refuting the claim that it is silently skipped with
no write attempted. -/
theorem policy_missing_script_write_attempted :
    alGet c3Bundle.script "s1" = none ∧
    Event.putScriptEv (some "s1") none ∈
      (importPolicyM envOk "p1" c3Bundle ⟨true, false, none⟩).1 := by
  refine ⟨rfl, ?_⟩
  simp [importPolicyM, importPolicyLoop, importPolicyEntryM, runPrereqStep,
    runUpdateStep, runDepsStep, importPolicyDependenciesM,
    importPolicyDependenciesLoop, findScriptUuids, findScriptUuidsSome_mk,
    jsSetDedup, jsSetDedupAux, updatePolicyM, updateScriptM, alGet, alSet, alKeys,
    stripPolicyEntry, truthy, envOk, c3Bundle, c3Policy, List.find?]

/-- C3 amended: for OAuth2 client imports with deps: true, a referenced
script id not present in the bundle script collection is silently skipped
— no write event ever carries an undefined payload, and when the writes of
the references that are present all succeed, the dependency pass reports
no error; for policy imports, the reference is NOT skipped: updateScript is
called for every referenced id with the bundle lookup result as payload,
which is undefined for a missing reference. -/
theorem missing_script_reference_handling :
    (∀ (env : Env) (p : PolicySkeleton) (ed : PolicyExportInterface),
      (importPolicyDependenciesM env p ed).1 =
        (findScriptUuids p.condition).map
          (fun u => Event.putScriptEv u (u.bind (fun s => alGet ed.script s)))) ∧
    (∀ (env : Env) (cd : ClientObj) (importData : OAuth2ClientExportInterface)
        (attrs : List (String × String)),
      alGet cd "overrideOAuth2ClientConfig" = some (.obj attrs) →
      (∀ ev ∈ (importOAuth2ClientDependenciesM env cd importData).1,
        ∀ v, ev ≠ Event.putScriptEv (some v) none) ∧
      ((∀ v sd, alGet importData.script v = some sd →
          env.putRes (Event.putScriptEv (some v) (some sd)) = none) →
        (importOAuth2ClientDependenciesM env cd importData).2 = none)) := by
  constructor
  · intro env p ed
    exact importPolicyDepsM_trace env p ed
  · intro env cd importData attrs hcd
    constructor
    · intro ev hev v
      simp only [importOAuth2ClientDependenciesM, hcd] at hev
      rcases importDepsLoop_sound env importData attrs ev hev with
        ⟨k', v', sd, _, _, _, _, rfl⟩
      intro hcontra
      injection hcontra with h1 h2
      exact Option.noConfusion h2
    · intro hok
      simp only [importOAuth2ClientDependenciesM, hcd]
      rw [importDepsLoop_complete env importData hok attrs]

def c3MissClient : ClientObj :=
  [("_id", .str "c1"),
   ("overrideOAuth2ClientConfig", .obj [("aScript", "s1"), ("bScript", "gone")])]

def c3CBundle : OAuth2ClientExportInterface :=
  { script := [("s1", c9Script)], application := [("c1", c3MissClient)] }

theorem missing_script_reference_handling_witness :
    (importOAuth2ClientDependenciesM envOk c3MissClient c3CBundle).2 = none :=
  ((missing_script_reference_handling.2 envOk c3MissClient c3CBundle _ rfl).2
    (fun _ _ _ => rfl))

/-! ## C6: the caller's bundle is mutated in place -/

def c6Policy : PolicySkeleton :=
  { _id := "p1", _rev := some "1", name := some "p1", resourceTypeUuid := none,
    applicationName := none, condition := none }

def c6Bundle : PolicyExportInterface :=
  { script := [], resourcetype := [], policy := [("p1", c6Policy)], policyset := [] }

/-- C6 counterexample: after importPolicy returns, the caller's bundle has
changed — the processed entry's `_rev` was deleted in place — refuting the
claim that the bundle passed by the caller is unchanged when the call
returns. -/
theorem importPolicy_mutates_caller_bundle :
    (importPolicyM envOk "p1" c6Bundle ⟨true, true, none⟩).2.1 ≠ c6Bundle := by
  intro h
  have h2 := congrArg (fun b => (alGet b.policy "p1").map (fun p => p._rev)) h
  exact absurd h2 (by decide)

/-- C6 amended: the import pipeline does not copy bundle entries: after
importPolicy(id, bundle, options) returns, the caller's bundle holds, at
every key equal to id, the entry stripped in place (`_rev` removed and,
when options.policySetName is set, `applicationName` overridden); every
other policy entry, the key structure, and the script, resourcetype and
policyset collections are unchanged. -/
theorem importPolicy_bundle_mutation (env : Env) (o : PolicyImportOptions)
    (policyId : String) (importData : PolicyExportInterface)
    (hnd : (alKeys importData.policy).Nodup) :
    (∀ k, alGet (importPolicyM env policyId importData o).2.1.policy k =
      (alGet importData.policy k).map
        (fun p => if k = policyId then stripPolicyEntry o p else p)) ∧
    (importPolicyM env policyId importData o).2.1.script = importData.script ∧
    (importPolicyM env policyId importData o).2.1.resourcetype =
      importData.resourcetype ∧
    (importPolicyM env policyId importData o).2.1.policyset = importData.policyset ∧
    alKeys (importPolicyM env policyId importData o).2.1.policy =
      alKeys importData.policy := by
  by_cases hmem : policyId ∈ alKeys importData.policy
  · rcases alGet_mem_keys _ _ hmem with ⟨p0, halg⟩
    have hb : (importPolicyM env policyId importData o).2.1 =
        { importData with
          policy := alSet importData.policy policyId (stripPolicyEntry o p0) } := by
      rw [(importPolicyM_comps env policyId importData o).2,
        importPolicyLoop_single env o policyId (alKeys importData.policy)
          importData hnd hmem,
        importPolicyEntryM_some env o importData policyId p0 halg]
    rw [hb]
    refine ⟨?_, rfl, rfl, rfl, alKeys_alSet_of_mem _ _ _ hmem⟩
    intro k
    by_cases hk : k = policyId
    · subst hk
      rw [alGet_alSet_self, halg, Option.map_some', if_pos rfl]
    · rw [alGet_alSet_ne _ _ _ _ hk]
      cases alGet importData.policy k with
      | none => rfl
      | some p => rw [Option.map_some', if_neg hk]
  · have hb : (importPolicyM env policyId importData o).2.1 = importData := by
      rw [(importPolicyM_comps env policyId importData o).2,
        importPolicyLoop_not_mem env o policyId (alKeys importData.policy)
          importData hmem]
    rw [hb]
    refine ⟨?_, rfl, rfl, rfl, rfl⟩
    intro k
    by_cases hk : k = policyId
    · subst hk
      rw [alGet_not_mem_keys _ _ hmem]
      rfl
    · cases alGet importData.policy k with
      | none => rfl
      | some p => rw [Option.map_some', if_neg hk]

theorem importPolicy_bundle_mutation_witness :
    alGet (importPolicyM envOk "p1" c6Bundle ⟨true, true, none⟩).2.1.policy "p1" =
      (alGet c6Bundle.policy "p1").map
        (fun p => if "p1" = "p1" then stripPolicyEntry ⟨true, true, none⟩ p else p) :=
  (importPolicy_bundle_mutation envOk ⟨true, true, none⟩ "p1" c6Bundle (by decide)).1 "p1"

/-! ## C5: import selector semantics -/

theorem event_write_classes (ev : Event) :
    (isPrereqWriteEv ev = true → isPolicyWriteEv ev = false) ∧
    (isScriptWriteEv ev = true → isPolicyWriteEv ev = false) := by
  cases ev <;> simp [isPrereqWriteEv, isScriptWriteEv, isPolicyWriteEv]

theorem filterPolicyWrites_entry (env : Env) (o : PolicyImportOptions)
    (b : PolicyExportInterface) (id : String) (p0 : PolicySkeleton)
    (halg : alGet b.policy id = some p0) :
    ((importPolicyEntryM env o b id).1).filter isPolicyWriteEv =
      [Event.putPolicyEv (stripPolicyEntry o p0)._id (stripPolicyEntry o p0)] := by
  rw [importPolicyEntryM_some env o b id p0 halg]
  simp only [List.filter_append]
  rw [runUpdateStep_trace]
  have h1 : (runPrereqStep env o (stripPolicyEntry o p0)
      { b with policy := alSet b.policy id (stripPolicyEntry o p0) }).1.filter
        isPolicyWriteEv = [] :=
    List.filter_eq_nil_iff.mpr (fun ev hev => by
      rw [(event_write_classes ev).1 (runPrereqStep_events env o _ _ ev hev)]
      simp)
  have h2 : (runDepsStep env o (stripPolicyEntry o p0)
      { b with policy := alSet b.policy id (stripPolicyEntry o p0) }).1.filter
        isPolicyWriteEv = [] :=
    List.filter_eq_nil_iff.mpr (fun ev hev => by
      rw [(event_write_classes ev).2 (runDepsStep_events env o _ _ ev hev)]
      simp)
  rw [h1, h2]
  simp [isPolicyWriteEv]

theorem importPolicyM_not_found (env : Env) (o : PolicyImportOptions)
    (policyId : String) (importData : PolicyExportInterface)
    (hmem : policyId ∉ alKeys importData.policy) :
    importPolicyM env policyId importData o =
      ([], importData,
        .error (.frodo ("Policy " ++ policyId ++ " not found in import data") [])) := by
  simp only [importPolicyM,
    importPolicyLoop_not_mem env o policyId _ importData hmem]
  simp

/-- Congruence for the per-entry pipeline: its trace, error and response
components depend only on the entry looked up and the three dependency
collections. -/
theorem importPolicyPrerequisitesM_congr (env : Env) (p : PolicySkeleton)
    (ed ed' : PolicyExportInterface)
    (hr : ed'.resourcetype = ed.resourcetype) (hp : ed'.policyset = ed.policyset) :
    importPolicyPrerequisitesM env p ed' = importPolicyPrerequisitesM env p ed := by
  unfold importPolicyPrerequisitesM importPolicyPrereqRT importPolicyPrereqPS
  rw [hr, hp]

theorem importPolicyDependenciesLoop_congr (env : Env) (pid : String)
    (ed ed' : PolicyExportInterface) (hs : ed'.script = ed.script) :
    ∀ uuids, importPolicyDependenciesLoop env pid ed' uuids =
      importPolicyDependenciesLoop env pid ed uuids := by
  intro uuids
  induction uuids with
  | nil => rfl
  | cons u rest ih =>
    simp only [importPolicyDependenciesLoop, hs, ih]

theorem importPolicyDependenciesM_congr (env : Env) (p : PolicySkeleton)
    (ed ed' : PolicyExportInterface) (hs : ed'.script = ed.script) :
    importPolicyDependenciesM env p ed' = importPolicyDependenciesM env p ed := by
  simp only [importPolicyDependenciesM,
    importPolicyDependenciesLoop_congr env p._id ed ed' hs]

theorem importPolicyEntryM_congr (env : Env) (o : PolicyImportOptions)
    (b b' : PolicyExportInterface) (id : String)
    (hs : b'.script = b.script) (hr : b'.resourcetype = b.resourcetype)
    (hp : b'.policyset = b.policyset)
    (hg : alGet b'.policy id = alGet b.policy id) :
    (importPolicyEntryM env o b' id).1 = (importPolicyEntryM env o b id).1 ∧
    (importPolicyEntryM env o b' id).2.2.1 = (importPolicyEntryM env o b id).2.2.1 ∧
    (importPolicyEntryM env o b' id).2.2.2 = (importPolicyEntryM env o b id).2.2.2 := by
  cases halg : alGet b.policy id with
  | none =>
    rw [importPolicyEntryM_none env o b id halg,
      importPolicyEntryM_none env o b' id (hg.trans halg)]
    exact ⟨rfl, rfl, rfl⟩
  | some p0 =>
    rw [importPolicyEntryM_some env o b id p0 halg,
      importPolicyEntryM_some env o b' id p0 (hg.trans halg)]
    have hP : importPolicyPrerequisitesM env (stripPolicyEntry o p0)
        { b' with policy := alSet b'.policy id (stripPolicyEntry o p0) } =
      importPolicyPrerequisitesM env (stripPolicyEntry o p0)
        { b with policy := alSet b.policy id (stripPolicyEntry o p0) } :=
      importPolicyPrerequisitesM_congr env _ _ _ hr hp
    have hD : importPolicyDependenciesM env (stripPolicyEntry o p0)
        { b' with policy := alSet b'.policy id (stripPolicyEntry o p0) } =
      importPolicyDependenciesM env (stripPolicyEntry o p0)
        { b with policy := alSet b.policy id (stripPolicyEntry o p0) } :=
      importPolicyDependenciesM_congr env _ _ _ hs
    refine ⟨?_, ?_, rfl⟩
    · simp only [runPrereqStep, runDepsStep, hP, hD]
    · simp only [runPrereqStep, runDepsStep, hP, hD]

/-- The non-policy collections and the other entries survive the per-entry
pipeline. -/
theorem importPolicyEntryM_bundle_frame (env : Env) (o : PolicyImportOptions)
    (b : PolicyExportInterface) (id : String) :
    ((importPolicyEntryM env o b id).2.1).script = b.script ∧
    ((importPolicyEntryM env o b id).2.1).resourcetype = b.resourcetype ∧
    ((importPolicyEntryM env o b id).2.1).policyset = b.policyset ∧
    (∀ k, k ≠ id → alGet ((importPolicyEntryM env o b id).2.1).policy k =
      alGet b.policy k) := by
  cases halg : alGet b.policy id with
  | none =>
    rw [importPolicyEntryM_none env o b id halg]
    exact ⟨rfl, rfl, rfl, fun _ _ => rfl⟩
  | some p0 =>
    rw [importPolicyEntryM_some env o b id p0 halg]
    exact ⟨rfl, rfl, rfl, fun k hk => alGet_alSet_ne _ _ _ _ hk⟩

/-- The decomposition of `importPolicies` over a key list with distinct
keys: every key is processed against the same observable state, so traces,
errors and responses concatenate per entry. -/
theorem importPoliciesLoop_decomp (env : Env) (o : PolicyImportOptions)
    (b0 : PolicyExportInterface) :
    ∀ (ks : List String) (b : PolicyExportInterface), ks.Nodup →
      b.script = b0.script → b.resourcetype = b0.resourcetype →
      b.policyset = b0.policyset →
      (∀ k ∈ ks, alGet b.policy k = alGet b0.policy k) →
      (importPoliciesLoop env o ks b).1 =
        ks.flatMap (fun k => (importPolicyEntryM env o b0 k).1) ∧
      (importPoliciesLoop env o ks b).2.2.1 =
        ks.flatMap (fun k => (importPolicyEntryM env o b0 k).2.2.1) ∧
      (importPoliciesLoop env o ks b).2.2.2 =
        ks.flatMap (fun k =>
          match (importPolicyEntryM env o b0 k).2.2.2 with
          | some r => [r]
          | none => []) := by
  intro ks
  induction ks with
  | nil => intro b _ _ _ _ _; exact ⟨rfl, rfl, rfl⟩
  | cons k rest ih =>
    intro b hnd hs hr hp hg
    have hcongr := importPolicyEntryM_congr env o b0 b k
      hs hr hp (hg k (List.mem_cons_self _ _))
    have hframe := importPolicyEntryM_bundle_frame env o b k
    have hnd' := List.nodup_cons.mp hnd
    have ihres := ih ((importPolicyEntryM env o b k).2.1)
      hnd'.2
      (hframe.1.trans hs) (hframe.2.1.trans hr) (hframe.2.2.1.trans hp)
      (fun k' hk' => by
        rw [hframe.2.2.2 k' (fun he => hnd'.1 (he ▸ hk'))]
        exact hg k' (List.mem_cons_of_mem _ hk'))
    simp only [importPoliciesLoop]
    rcases hE : importPolicyEntryM env o b k with ⟨tr, b1, errs, resp⟩
    simp only [hE] at hcongr ihres ⊢
    rcases hL : importPoliciesLoop env o rest b1 with ⟨trR, bR, errsR, respsR⟩
    simp only [hL] at ihres ⊢
    simp only [List.flatMap_cons]
    refine ⟨?_, ?_, ?_⟩
    · rw [ihres.1, hcongr.1]
    · rw [ihres.2.1, hcongr.2.1]
    · rw [ihres.2.2, hcongr.2.2]

theorem importPoliciesM_branches (env : Env)
    (importData : PolicyExportInterface) (o : PolicyImportOptions) :
    (importPoliciesM env importData o).1 =
      (importPoliciesLoop env o (alKeys importData.policy) importData).1 ∧
    ((importPoliciesLoop env o (alKeys importData.policy) importData).2.2.1 = [] →
      (importPoliciesM env importData o).2.2 =
        .ok (importPoliciesLoop env o (alKeys importData.policy) importData).2.2.2) ∧
    ((importPoliciesLoop env o (alKeys importData.policy) importData).2.2.1 ≠ [] →
      (importPoliciesM env importData o).2.2 =
        .error (.frodo ("Error importing " ++ realmStr ++ " policies")
          (importPoliciesLoop env o (alKeys importData.policy) importData).2.2.1)) := by
  rcases h : importPoliciesLoop env o (alKeys importData.policy) importData with
    ⟨tr, bundle, errs, resps⟩
  simp only [importPoliciesM, h]
  refine ⟨?_, ?_, ?_⟩
  · by_cases h1 : errs.length > 0 <;> simp [h1]
  · intro he
    subst he
    simp
  · intro he
    have h1 : errs.length > 0 := by
      cases errs with
      | nil => exact absurd rfl he
      | cons a l => simp
    simp [h1]

theorem alGet_self_of_nodup {β : Type} :
    ∀ m : List (String × β), (alKeys m).Nodup →
      ∀ kv ∈ m, alGet m kv.1 = some kv.2 := by
  intro m
  induction m with
  | nil => intro _ kv h; simp at h
  | cons kv0 rest ih =>
    intro hnd kv hkv
    rcases kv0 with ⟨k0, v0⟩
    have hcons : (k0 :: alKeys rest).Nodup := hnd
    have hnd' := List.nodup_cons.mp hcons
    rcases List.mem_cons.mp hkv with h | h
    · subst h
      simp [alGet_cons]
    · have hk0 : k0 ≠ kv.1 := by
        intro he
        refine hnd'.1 ?_
        rw [he]
        exact List.mem_map.mpr ⟨kv, h, rfl⟩
      rw [alGet_cons, if_neg hk0]
      exact ih hnd'.2 kv h

theorem keys_flatMap_policyWrites (env : Env) (o : PolicyImportOptions)
    (b0 : PolicyExportInterface) :
    ∀ m : List (String × PolicySkeleton),
      (∀ kv ∈ m, alGet b0.policy kv.1 = some kv.2) →
      (alKeys m).flatMap
        (fun k => ((importPolicyEntryM env o b0 k).1).filter isPolicyWriteEv) =
      m.map (fun kv =>
        Event.putPolicyEv (stripPolicyEntry o kv.2)._id (stripPolicyEntry o kv.2)) := by
  intro m
  induction m with
  | nil => intro _; rfl
  | cons kv rest ih =>
    intro hm
    have hstep : alKeys (kv :: rest) = kv.1 :: alKeys rest := rfl
    rw [hstep, List.flatMap_cons, List.map_cons,
      filterPolicyWrites_entry env o b0 kv.1 kv.2 (hm kv (List.mem_cons_self _ _)),
      ih (fun kv' h => hm kv' (List.mem_cons_of_mem _ h))]
    rfl

def emptyPolicyBundle : PolicyExportInterface :=
  { script := [], resourcetype := [], policy := [], policyset := [] }

/-- C5 counterexample: `importFirstPolicy` on an empty bundle raises the
error message `No policy found in import data`, not `no objects found` as
claimed. -/
theorem importFirstPolicy_empty_message :
    (importFirstPolicyM envOk emptyPolicyBundle ⟨true, false, none⟩).2.2 =
      .error (.frodo "No policy found in import data" []) ∧
    errorMessage (.frodo "No policy found in import data" []) ≠
      "no objects found" := by
  exact ⟨rfl, by decide⟩

theorem importFirstPolicyM_cons (env : Env) (o : PolicyImportOptions)
    (importData : PolicyExportInterface) (k : String) (p : PolicySkeleton)
    (rest : List (String × PolicySkeleton))
    (hpol : importData.policy = (k, p) :: rest) :
    (importFirstPolicyM env importData o).1 =
      (importPolicyEntryM env o importData k).1 := by
  simp only [importFirstPolicyM, hpol, alKeys, List.map_cons]
  rcases hE : importPolicyEntryM env o importData k with ⟨tr, b1, errs, resp⟩
  simp only [hE]
  by_cases h1 : errs.length > 0
  · simp [h1]
  · cases resp <;> simp [h1]

theorem filter_flatMap_list {α β : Type} (p : β → Bool) (f : α → List β) :
    ∀ l : List α, (l.flatMap f).filter p = l.flatMap (fun a => (f a).filter p) := by
  intro l
  induction l with
  | nil => rfl
  | cons a t ih => simp only [List.flatMap_cons, List.filter_append, ih]

/-- C5 amended: `importPolicy(id, bundle)` writes exactly the policy entry
whose key equals id (as stripped by the pipeline), and raises
`Policy <id> not found in import data` with an empty trace when no key
matches; `importFirstPolicy` attempts only the first entry in the bundle
iteration order, raising `No policy found in import data` (not
`no objects found`) when the bundle policy collection is empty;
`importPolicies` attempts every entry — the policy writes are exactly one
per entry in order, a failure in one entry does not remove the writes of
the others — and afterwards raises an aggregate error carrying exactly the
per-entry errors, returning the responses exactly when there were none. -/
theorem import_selector_semantics :
    (∀ (env : Env) (o : PolicyImportOptions) (policyId : String)
        (importData : PolicyExportInterface),
      (alKeys importData.policy).Nodup →
      (policyId ∉ alKeys importData.policy →
        importPolicyM env policyId importData o =
          ([], importData,
            .error (.frodo ("Policy " ++ policyId ++ " not found in import data") []))) ∧
      (∀ p0, alGet importData.policy policyId = some p0 →
        ((importPolicyM env policyId importData o).1).filter isPolicyWriteEv =
          [Event.putPolicyEv (stripPolicyEntry o p0)._id (stripPolicyEntry o p0)])) ∧
    (∀ (env : Env) (o : PolicyImportOptions) (importData : PolicyExportInterface),
      (importData.policy = [] →
        importFirstPolicyM env importData o =
          ([], importData, .error (.frodo "No policy found in import data" []))) ∧
      (∀ k p rest, importData.policy = (k, p) :: rest →
        (importFirstPolicyM env importData o).1 =
          (importPolicyEntryM env o importData k).1 ∧
        ((importFirstPolicyM env importData o).1).filter isPolicyWriteEv =
          [Event.putPolicyEv (stripPolicyEntry o p)._id (stripPolicyEntry o p)])) ∧
    (∀ (env : Env) (o : PolicyImportOptions) (importData : PolicyExportInterface),
      (alKeys importData.policy).Nodup →
      ((importPoliciesM env importData o).1).filter isPolicyWriteEv =
        importData.policy.map (fun kv =>
          Event.putPolicyEv (stripPolicyEntry o kv.2)._id (stripPolicyEntry o kv.2)) ∧
      ((alKeys importData.policy).flatMap
          (fun k => (importPolicyEntryM env o importData k).2.2.1) = [] →
        (importPoliciesM env importData o).2.2 =
          .ok ((alKeys importData.policy).flatMap (fun k =>
            match (importPolicyEntryM env o importData k).2.2.2 with
            | some r => [r]
            | none => []))) ∧
      ((alKeys importData.policy).flatMap
          (fun k => (importPolicyEntryM env o importData k).2.2.1) ≠ [] →
        (importPoliciesM env importData o).2.2 =
          .error (.frodo ("Error importing " ++ realmStr ++ " policies")
            ((alKeys importData.policy).flatMap
              (fun k => (importPolicyEntryM env o importData k).2.2.1))))) := by
  refine ⟨?_, ?_, ?_⟩
  · intro env o policyId importData hnd
    constructor
    · exact importPolicyM_not_found env o policyId importData
    · intro p0 halg
      have hmem : policyId ∈ alKeys importData.policy := by
        by_contra hnm
        rw [alGet_not_mem_keys _ _ hnm] at halg
        exact Option.noConfusion halg
      rw [(importPolicyM_comps env policyId importData o).1,
        importPolicyLoop_single env o policyId (alKeys importData.policy)
          importData hnd hmem]
      exact filterPolicyWrites_entry env o importData policyId p0 halg
  · intro env o importData
    constructor
    · intro h
      simp [importFirstPolicyM, h, alKeys]
    · intro k p rest hpol
      have halg : alGet importData.policy k = some p := by
        rw [hpol, alGet_cons, if_pos rfl]
      have htr := importFirstPolicyM_cons env o importData k p rest hpol
      refine ⟨htr, ?_⟩
      rw [htr]
      exact filterPolicyWrites_entry env o importData k p halg
  · intro env o importData hnd
    have hdec := importPoliciesLoop_decomp env o importData
      (alKeys importData.policy) importData hnd rfl rfl rfl (fun _ _ => rfl)
    have hbr := importPoliciesM_branches env importData o
    refine ⟨?_, ?_, ?_⟩
    · rw [hbr.1, hdec.1, filter_flatMap_list]
      exact keys_flatMap_policyWrites env o importData importData.policy
        (alGet_self_of_nodup importData.policy hnd)
    · intro he
      rw [hbr.2.1 (by rw [hdec.2.1]; exact he), hdec.2.2]
    · intro he
      rw [hbr.2.2 (by rw [hdec.2.1]; exact he), hdec.2.1]

def c5Policy : PolicySkeleton :=
  { _id := "p1", _rev := some "1", name := some "p1", resourceTypeUuid := none,
    applicationName := none, condition := none }

def c5Opts : PolicyImportOptions :=
  { deps := false, prereqs := false, policySetName := none }

def c5Bundle : PolicyExportInterface :=
  { script := [], resourcetype := [], policy := [("p1", c5Policy)],
    policyset := [] }

/-- Witness: the selector-semantics theorem at a concrete one-entry
bundle whose key list trivially has no duplicates. -/
theorem import_selector_semantics_witness :
    (alKeys c5Bundle.policy).Nodup ∧
    ((importPoliciesM envOk c5Bundle c5Opts).1).filter isPolicyWriteEv =
      c5Bundle.policy.map (fun kv =>
        Event.putPolicyEv (stripPolicyEntry c5Opts kv.2)._id
          (stripPolicyEntry c5Opts kv.2)) :=
  ⟨by decide,
    (import_selector_semantics.2.2 envOk c5Opts c5Bundle (by decide)).1⟩

/-! ## C4: batch exports collect errors and fail closed -/

theorem exportPrereqRTStep_indep (env : Env) (p : PolicySkeleton)
    (ed ed' : PolicyExportInterface) :
    (exportPrereqRTStep env p ed').1 = (exportPrereqRTStep env p ed).1 ∧
    (exportPrereqRTStep env p ed').2.2 = (exportPrereqRTStep env p ed).2.2 := by
  unfold exportPrereqRTStep
  rcases hrt : p.resourceTypeUuid with _ | uuid <;> simp only [hrt]
  · exact ⟨trivial, trivial⟩
  · by_cases hu : uuid = ""
    · simp only [if_pos hu]
      exact ⟨trivial, trivial⟩
    · simp only [if_neg hu]
      rcases hg : getResourceTypeM env uuid with ⟨tr, res⟩
      simp only [hg]
      cases res <;> exact ⟨rfl, rfl⟩

theorem exportPrereqPSStep_indep (env : Env) (p : PolicySkeleton)
    (ed ed' : PolicyExportInterface) :
    (exportPrereqPSStep env p ed').1 = (exportPrereqPSStep env p ed).1 ∧
    (exportPrereqPSStep env p ed').2.2 = (exportPrereqPSStep env p ed).2.2 := by
  unfold exportPrereqPSStep
  rcases hap : p.applicationName with _ | app <;> simp only [hap]
  · exact ⟨trivial, trivial⟩
  · by_cases ha : app = ""
    · simp only [if_pos ha]
      exact ⟨trivial, trivial⟩
    · simp only [if_neg ha]
      rcases hg : readPolicySetM env app with ⟨tr, res⟩
      simp only [hg]
      cases res <;> exact ⟨rfl, rfl⟩

theorem exportPolicyPrereqsM_indep (env : Env) (p : PolicySkeleton)
    (ed ed' : PolicyExportInterface) :
    (exportPolicyPrerequisitesM env p ed').1 =
      (exportPolicyPrerequisitesM env p ed).1 ∧
    (exportPolicyPrerequisitesM env p ed').2.2 =
      (exportPolicyPrerequisitesM env p ed).2.2 := by
  unfold exportPolicyPrerequisitesM
  have hRT := exportPrereqRTStep_indep env p ed ed'
  rcases h1 : exportPrereqRTStep env p ed' with ⟨tr1', ed1', errs1'⟩
  rcases h2 : exportPrereqRTStep env p ed with ⟨tr1, ed1, errs1⟩
  simp only [h1, h2] at hRT ⊢
  have hPS := exportPrereqPSStep_indep env p ed1 ed1'
  rcases h3 : exportPrereqPSStep env p ed1' with ⟨tr2', ed2', errs2'⟩
  rcases h4 : exportPrereqPSStep env p ed1 with ⟨tr2, ed2, errs2⟩
  simp only [h3, h4] at hPS ⊢
  obtain ⟨e1, e2⟩ := hRT
  obtain ⟨f1, f2⟩ := hPS
  subst e1
  subst e2
  subst f1
  subst f2
  exact ⟨rfl, rfl⟩

theorem exportPolicyPrereqsRun_indep (env : Env) (p : PolicySkeleton)
    (ed ed' : PolicyExportInterface) :
    (exportPolicyPrerequisitesRun env p ed').1 =
      (exportPolicyPrerequisitesRun env p ed).1 ∧
    (exportPolicyPrerequisitesRun env p ed').2.2 =
      (exportPolicyPrerequisitesRun env p ed).2.2 := by
  have hM := exportPolicyPrereqsM_indep env p ed ed'
  unfold exportPolicyPrerequisitesRun
  rcases h1 : exportPolicyPrerequisitesM env p ed' with ⟨tr', edx', errs'⟩
  rcases h2 : exportPolicyPrerequisitesM env p ed with ⟨tr, edx, errs⟩
  simp only [h1, h2] at hM ⊢
  obtain ⟨hTr, hErrs⟩ := hM
  subst hTr
  subst hErrs
  cases errs' <;> exact ⟨rfl, rfl⟩

theorem exportPrereqStepP_indep (env : Env) (o : PolicyExportOptions)
    (p : PolicySkeleton) (ed ed' : PolicyExportInterface) :
    (exportPrereqStepP env o p ed').1 = (exportPrereqStepP env o p ed).1 ∧
    (exportPrereqStepP env o p ed').2.2 = (exportPrereqStepP env o p ed).2.2 := by
  unfold exportPrereqStepP
  by_cases hp : o.prereqs = true
  · rw [if_pos hp, if_pos hp]
    have hR := exportPolicyPrereqsRun_indep env p ed ed'
    rcases h1 : exportPolicyPrerequisitesRun env p ed' with ⟨tr', edx', out'⟩
    rcases h2 : exportPolicyPrerequisitesRun env p ed with ⟨tr, edx, out⟩
    simp only [h1, h2] at hR ⊢
    obtain ⟨hTr, hOut⟩ := hR
    subst hTr
    subst hOut
    cases out' <;> exact ⟨rfl, rfl⟩
  · rw [if_neg hp, if_neg hp]
    exact ⟨rfl, rfl⟩

theorem exportPolicyDepsM_indep (env : Env) (o : PolicyExportOptions)
    (p : PolicySkeleton) (ed ed' : PolicyExportInterface) :
    (exportPolicyDependenciesM env o p ed').1 =
      (exportPolicyDependenciesM env o p ed).1 ∧
    (exportPolicyDependenciesM env o p ed').2.2 =
      (exportPolicyDependenciesM env o p ed).2.2 := by
  unfold exportPolicyDependenciesM
  rcases hg : getScriptsM env p with ⟨tr, res⟩
  simp only [hg]
  cases res <;> exact ⟨rfl, rfl⟩

theorem exportDepsStepP_indep (env : Env) (o : PolicyExportOptions)
    (p : PolicySkeleton) (ed ed' : PolicyExportInterface) :
    (exportDepsStepP env o p ed').1 = (exportDepsStepP env o p ed).1 ∧
    (exportDepsStepP env o p ed').2.2 = (exportDepsStepP env o p ed).2.2 := by
  unfold exportDepsStepP
  by_cases hd : o.deps = true
  · rw [if_pos hd, if_pos hd]
    have hM := exportPolicyDepsM_indep env o p ed ed'
    rcases h1 : exportPolicyDependenciesM env o p ed' with ⟨tr', edx', out'⟩
    rcases h2 : exportPolicyDependenciesM env o p ed with ⟨tr, edx, out⟩
    simp only [h1, h2] at hM ⊢
    obtain ⟨hTr, hOut⟩ := hM
    subst hTr
    subst hOut
    cases out' <;> exact ⟨rfl, rfl⟩
  · rw [if_neg hd, if_neg hd]
    exact ⟨rfl, rfl⟩

/-- The trace one item of the per-policy export loop contributes: it does
not depend on the bundle assembled so far, so it is canonically computed at
the template. -/
def exportPolicyItemTrace (env : Env) (options : PolicyExportOptions)
    (p : PolicySkeleton) : List Event :=
  (exportPrereqStepP env options p createPolicyExportTemplate).1 ++
  (exportDepsStepP env options p createPolicyExportTemplate).1

/-- The errors one item of the per-policy export loop contributes. -/
def exportPolicyItemErrors (env : Env) (options : PolicyExportOptions)
    (p : PolicySkeleton) : List ErrorValue :=
  (exportPrereqStepP env options p createPolicyExportTemplate).2.2 ++
  (exportDepsStepP env options p createPolicyExportTemplate).2.2

/-- The per-policy export loop processes every item: its trace and its
error list are the per-item concatenations, independently of any earlier
item's failure. -/
theorem exportPoliciesLoop_comps (env : Env) (options : PolicyExportOptions) :
    ∀ (ps : List PolicySkeleton) (ed : PolicyExportInterface),
      (exportPoliciesLoop env options ps ed).1 =
        ps.flatMap (exportPolicyItemTrace env options) ∧
      (exportPoliciesLoop env options ps ed).2.2 =
        ps.flatMap (exportPolicyItemErrors env options) := by
  intro ps
  induction ps with
  | nil => intro ed; exact ⟨rfl, rfl⟩
  | cons p rest ih =>
    intro ed
    simp only [exportPoliciesLoop]
    rcases hP : exportPrereqStepP env options p
      { ed with policy := alSet ed.policy p._id p } with ⟨trP, ed2, errsP⟩
    have hPi := exportPrereqStepP_indep env options p
      createPolicyExportTemplate { ed with policy := alSet ed.policy p._id p }
    rcases hD : exportDepsStepP env options p ed2 with ⟨trD, ed3, errsD⟩
    have hDi := exportDepsStepP_indep env options p
      createPolicyExportTemplate ed2
    rcases hR : exportPoliciesLoop env options rest ed3 with ⟨trR, edR, errsR⟩
    have hRc := ih ed3
    simp only [hP, hD, hR] at hPi hDi hRc ⊢
    simp only [List.flatMap_cons, exportPolicyItemTrace, exportPolicyItemErrors]
    constructor
    · rw [hPi.1, hDi.1, hRc.1, List.append_assoc]
    · rw [hPi.2, hDi.2, hRc.2, List.append_assoc]

/-- The script-dependency resolution of a client export touches only the
bundle script collection. -/
theorem exportClientDepsLoop_app (env : Env) (o : OAuth2ClientExportOptions)
    (cid : String) :
    ∀ (attrs : List (String × String)) (ed : OAuth2ClientExportInterface),
      ((exportOAuth2ClientDependenciesLoop env o cid attrs ed).2.1).application =
        ed.application := by
  intro attrs
  induction attrs with
  | nil => intro ed; rfl
  | cons kv rest ih =>
    rcases kv with ⟨k, v⟩
    intro ed
    simp only [exportOAuth2ClientDependenciesLoop]
    by_cases hk : strEndsWith k "Script" = true
    · rw [if_pos hk]
      by_cases hv : v = "[Empty]"
      · rw [if_pos hv]
        exact ih ed
      · rw [if_neg hv]
        cases halg : alGet ed.script v with
        | some sd =>
          simp only [halg]
          exact ih ed
        | none =>
          simp only [halg, readScriptM]
          cases hres : env.readScriptRes (some v) with
          | ok sd =>
            simp only [hres]
            exact ih _
          | error e =>
            by_cases hsig : httpStatus e = some 403 ∧ httpMessage e = some capabilityMsg
            · simp only [hres, if_pos hsig]
              exact ih ed
            · simp only [hres, if_neg hsig]
    · rw [if_neg hk]
      exact ih ed

theorem exportClientDepsM_app (env : Env) (o : OAuth2ClientExportOptions)
    (cd : ClientObj) (ed : OAuth2ClientExportInterface) :
    ((exportOAuth2ClientDependenciesM env o cd ed).2.1).application =
      ed.application := by
  unfold exportOAuth2ClientDependenciesM
  rcases halg : alGet cd "overrideOAuth2ClientConfig" with _ | f
  · simp only [halg]
  · cases f with
    | str s => simp only [halg]
    | obj attrs =>
      simp only [halg]
      exact exportClientDepsLoop_app env o (jsGetStr cd "_id") attrs ed

/-- The bundle a per-client step hands on: the client (with the provider
attached) recorded under its id, the rest of the application collection
untouched. -/
theorem exportClientStep_app (env : Env) (o : OAuth2ClientExportOptions)
    (provider : JsField) (client : ClientObj)
    (ed : OAuth2ClientExportInterface) :
    ((exportClientStep env o provider client ed).2.1).application =
      alSet ed.application (jsGetStr (alSet client "_provider" provider) "_id")
        (alSet client "_provider" provider) := by
  simp only [exportClientStep]
  by_cases hd : o.deps = true
  · rw [if_pos hd]
    have hApp := exportClientDepsM_app env o (alSet client "_provider" provider) { ed with application := alSet ed.application (jsGetStr (alSet client "_provider" provider) "_id") (alSet client "_provider" provider) }
    rcases hD : exportOAuth2ClientDependenciesM env o (alSet client "_provider" provider) { ed with application := alSet ed.application (jsGetStr (alSet client "_provider" provider) "_id") (alSet client "_provider" provider) } with ⟨tr, edN, out⟩
    simp only [hD] at hApp ⊢
    cases out <;> exact hApp
  · rw [if_neg hd]

theorem alGet_alSet_isSome {β : Type} (m : List (String × β)) (k k' : String)
    (v : β) (h : ∃ w, alGet m k' = some w) :
    ∃ w, alGet (alSet m k v) k' = some w := by
  by_cases he : k' = k
  · subst he
    exact ⟨v, alGet_alSet_self m k' v⟩
  · rw [alGet_alSet_ne m k k' v he]
    exact h

theorem exportClientsLoop_app_mem (env : Env) (o : OAuth2ClientExportOptions)
    (provider : JsField) :
    ∀ (cs : List ClientObj) (ed : OAuth2ClientExportInterface) (key : String),
      (∃ w, alGet ed.application key = some w) →
      ∃ w, alGet ((exportOAuth2ClientsLoop env o provider cs ed).2.1).application
        key = some w := by
  intro cs
  induction cs with
  | nil => intro ed key h; exact h
  | cons c rest ih =>
    intro ed key h
    simp only [exportOAuth2ClientsLoop]
    rcases hS : exportClientStep env o provider c ed with ⟨trD, ed2, errsD⟩
    simp only [hS]
    rcases hL : exportOAuth2ClientsLoop env o provider rest ed2 with ⟨trR, edR, errsR⟩
    simp only [hL]
    have hApp := exportClientStep_app env o provider c ed
    simp only [hS] at hApp
    have h2 : ∃ w, alGet ed2.application key = some w := by
      rw [hApp]
      exact alGet_alSet_isSome _ _ _ _ h
    have hrest := ih ed2 key h2
    simp only [hL] at hrest
    exact hrest

/-- Every client of the listing ends up attached in the loop's final
bundle: a failing item does not stop the processing of the others. -/
theorem exportClientsLoop_attached (env : Env) (o : OAuth2ClientExportOptions)
    (provider : JsField) :
    ∀ (cs : List ClientObj) (ed : OAuth2ClientExportInterface),
      ∀ c ∈ cs, ∃ w,
        alGet ((exportOAuth2ClientsLoop env o provider cs ed).2.1).application
          (jsGetStr (alSet c "_provider" provider) "_id") = some w := by
  intro cs
  induction cs with
  | nil => intro ed c hc; exact absurd hc (List.not_mem_nil c)
  | cons c0 rest ih =>
    intro ed c hc
    simp only [exportOAuth2ClientsLoop]
    rcases hS : exportClientStep env o provider c0 ed with ⟨trD, ed2, errsD⟩
    simp only [hS]
    rcases hL : exportOAuth2ClientsLoop env o provider rest ed2 with ⟨trR, edR, errsR⟩
    simp only [hL]
    rcases List.mem_cons.mp hc with h | h
    · subst h
      have hApp := exportClientStep_app env o provider c ed
      simp only [hS] at hApp
      have h0 : ∃ w, alGet ed2.application
          (jsGetStr (alSet c "_provider" provider) "_id") = some w := by
        rw [hApp]
        exact ⟨_, alGet_alSet_self _ _ _⟩
      have hrest := exportClientsLoop_app_mem env o provider rest ed2 _ h0
      simp only [hL] at hrest
      exact hrest
    · have hrest := ih ed2 c h
      simp only [hL] at hrest
      exact hrest

/-- The per-client error concatenation of the client export loop: each
item contributes against the bundle handed on by its predecessors, with no
short-circuit. -/
def exportClientsErrs (env : Env) (o : OAuth2ClientExportOptions)
    (provider : JsField) :
    List ClientObj → OAuth2ClientExportInterface → List ErrorValue
  | [], _ => []
  | c :: rest, ed =>
    (exportClientStep env o provider c ed).2.2 ++
      exportClientsErrs env o provider rest
        (exportClientStep env o provider c ed).2.1

theorem exportClientsLoop_errs (env : Env) (o : OAuth2ClientExportOptions)
    (provider : JsField) :
    ∀ (cs : List ClientObj) (ed : OAuth2ClientExportInterface),
      (exportOAuth2ClientsLoop env o provider cs ed).2.2 =
        exportClientsErrs env o provider cs ed := by
  intro cs
  induction cs with
  | nil => intro ed; rfl
  | cons c rest ih =>
    intro ed
    simp only [exportOAuth2ClientsLoop, exportClientsErrs]
    rcases hS : exportClientStep env o provider c ed with ⟨trD, ed2, errsD⟩
    simp only [hS]
    rcases hL : exportOAuth2ClientsLoop env o provider rest ed2 with ⟨trR, edR, errsR⟩
    simp only [hL]
    have hrest := ih ed2
    simp only [hL] at hrest
    rw [hrest]

/-- C4: every batch export collects per-item errors without stopping at a
failure and fails closed. `exportPolicies` and `exportPoliciesByPolicySet`
emit the listing read followed by every item's trace — independently of
any other item's failure — return the assembled bundle exactly when no
per-item error occurred, and otherwise raise one aggregate error holding
exactly the per-item errors and no bundle. `exportOAuth2Clients` collects
the per-client errors in order, attaches every listed client to the bundle
even when other clients fail, returns the bundle exactly when no error
occurred, and otherwise raises one aggregate error holding exactly the
per-client errors. -/
theorem batch_export_fail_closed :
    (∀ (env : Env) (options : PolicyExportOptions)
        (policies : List PolicySkeleton),
      env.getPoliciesRes = .ok policies →
      (exportPoliciesM env options).1 =
        Event.getPoliciesEv ::
          policies.flatMap (exportPolicyItemTrace env options) ∧
      (policies.flatMap (exportPolicyItemErrors env options) = [] →
        ∃ ed, (exportPoliciesM env options).2 = .ok ed) ∧
      (policies.flatMap (exportPolicyItemErrors env options) ≠ [] →
        (exportPoliciesM env options).2 =
          .error (.frodo ("Error exporting " ++ realmStr ++ " policies")
            (policies.flatMap (exportPolicyItemErrors env options))))) ∧
    (∀ (env : Env) (name : String) (options : PolicyExportOptions)
        (policies : List PolicySkeleton),
      env.getPoliciesByPolicySetRes name = .ok policies →
      (exportPoliciesByPolicySetM env name options).1 =
        Event.getPoliciesByPolicySetEv name ::
          policies.flatMap (exportPolicyItemTrace env options) ∧
      (policies.flatMap (exportPolicyItemErrors env options) = [] →
        ∃ ed, (exportPoliciesByPolicySetM env name options).2 = .ok ed) ∧
      (policies.flatMap (exportPolicyItemErrors env options) ≠ [] →
        (exportPoliciesByPolicySetM env name options).2 =
          .error (.frodo
            ("Error exporting " ++ realmStr ++ " policies in set " ++ name)
            (policies.flatMap (exportPolicyItemErrors env options))))) ∧
    (∀ (env : Env) (options : OAuth2ClientExportOptions) (provider : JsField)
        (clients : List ClientObj),
      env.readProviderRes = .ok provider →
      (readOAuth2ClientsM env).2 = .ok clients →
      (exportOAuth2ClientsLoop env options provider clients
          createOAuth2ClientExportTemplate).2.2 =
        exportClientsErrs env options provider clients
          createOAuth2ClientExportTemplate ∧
      (∀ c ∈ clients, ∃ w,
        alGet ((exportOAuth2ClientsLoop env options provider clients
            createOAuth2ClientExportTemplate).2.1).application
          (jsGetStr (alSet c "_provider" provider) "_id") = some w) ∧
      (exportClientsErrs env options provider clients
          createOAuth2ClientExportTemplate = [] →
        (exportOAuth2ClientsM env options).2 =
          .ok (exportOAuth2ClientsLoop env options provider clients
            createOAuth2ClientExportTemplate).2.1) ∧
      (exportClientsErrs env options provider clients
          createOAuth2ClientExportTemplate ≠ [] →
        (exportOAuth2ClientsM env options).2 =
          .error (.frodo ("Error exporting " ++ realmStr ++ " oauth2 clients")
            (exportClientsErrs env options provider clients
              createOAuth2ClientExportTemplate)))) := by
  refine ⟨?_, ?_, ?_⟩
  · intro env options policies hres
    have hdec := exportPoliciesLoop_comps env options policies
      createPolicyExportTemplate
    rcases hL : exportPoliciesLoop env options policies
      createPolicyExportTemplate with ⟨tr, ed, errs⟩
    simp only [hL] at hdec
    refine ⟨?_, ?_, ?_⟩
    · simp only [exportPoliciesM, hres, hL]
      by_cases h1 : errs.length > 0 <;> simp [h1, hdec.1]
    · intro he
      have herrs : errs = [] := hdec.2.trans he
      refine ⟨ed, ?_⟩
      simp only [exportPoliciesM, hres, hL]
      simp [herrs]
    · intro he
      have herrs : errs ≠ [] := fun h0 => he (hdec.2.symm.trans h0)
      have h1 : errs.length > 0 := by
        cases errs with
        | nil => exact absurd rfl herrs
        | cons a l => simp
      simp only [exportPoliciesM, hres, hL]
      rw [if_pos h1]
      simp [hdec.2]
  · intro env name options policies hres
    have hdec := exportPoliciesLoop_comps env options policies
      createPolicyExportTemplate
    rcases hL : exportPoliciesLoop env options policies
      createPolicyExportTemplate with ⟨tr, ed, errs⟩
    simp only [hL] at hdec
    refine ⟨?_, ?_, ?_⟩
    · simp only [exportPoliciesByPolicySetM, hres, hL]
      by_cases h1 : errs.length > 0 <;> simp [h1, hdec.1]
    · intro he
      have herrs : errs = [] := hdec.2.trans he
      refine ⟨ed, ?_⟩
      simp only [exportPoliciesByPolicySetM, hres, hL]
      simp [herrs]
    · intro he
      have herrs : errs ≠ [] := fun h0 => he (hdec.2.symm.trans h0)
      have h1 : errs.length > 0 := by
        cases errs with
        | nil => exact absurd rfl herrs
        | cons a l => simp
      simp only [exportPoliciesByPolicySetM, hres, hL]
      rw [if_pos h1]
      simp [hdec.2]
  · intro env options provider clients hprov hread
    rcases hRC : readOAuth2ClientsM env with ⟨trC, resC⟩
    simp only [hRC] at hread
    subst hread
    have hErrs := exportClientsLoop_errs env options provider clients
      createOAuth2ClientExportTemplate
    have hAtt := exportClientsLoop_attached env options provider clients
      createOAuth2ClientExportTemplate
    rcases hL : exportOAuth2ClientsLoop env options provider clients
      createOAuth2ClientExportTemplate with ⟨tr, ed, errs⟩
    simp only [hL] at hErrs hAtt ⊢
    refine ⟨hErrs, hAtt, ?_, ?_⟩
    · intro he
      have herrs : errs = [] := hErrs.trans he
      simp only [exportOAuth2ClientsM, hprov, hRC, hL]
      simp [herrs]
    · intro he
      have herrs : errs ≠ [] := fun h0 => he (hErrs.symm.trans h0)
      have h1 : errs.length > 0 := by
        cases errs with
        | nil => exact absurd rfl herrs
        | cons a l => simp
      simp only [exportOAuth2ClientsM, hprov, hRC, hL]
      rw [if_pos h1]
      simp [hErrs]

/-- Witness: the batch policy export against the benign environment with
an empty listing succeeds with a bundle. -/
theorem batch_export_fail_closed_witness :
    envOk.getPoliciesRes = .ok [] ∧
    ([] : List PolicySkeleton).flatMap
      (exportPolicyItemErrors envOk ⟨false, false, false⟩) = [] ∧
    ∃ ed, (exportPoliciesM envOk ⟨false, false, false⟩).2 = .ok ed :=
  ⟨rfl, rfl,
    (batch_export_fail_closed.1 envOk ⟨false, false, false⟩ [] rfl).2.1 rfl⟩

def c8CapErr : ErrorValue := .frodo "request failed" [.http 403 capabilityMsg none]

def c8Client : ClientObj :=
  [("_id", .str "c1"),
   ("overrideOAuth2ClientConfig", .obj [("authorizeEndpointDataProviderScript", "s1")])]

def envC8 : Env :=
  { envOk with
    getClientsRes := .ok [c8Client]
    readScriptRes := fun _ => .error c8CapErr }

/-- C8 counterexample: the script read during client dependency export
fails with the capability-absence signal, yet the export succeeds and the
read is attempted — the signal is also swallowed for script reads, not
only for the all-objects listing call, refuting the claim that every other
failing remote call propagates its error. -/
theorem capability_absence_not_only_listing :
    envC8.readScriptRes (some "s1") = .error c8CapErr ∧
    httpStatus c8CapErr = some 403 ∧ httpMessage c8CapErr = some capabilityMsg ∧
    (exportOAuth2ClientsM envC8 ⟨true, true⟩).1 =
      [Event.getProviderEv, Event.getClientsEv, Event.readScriptEv (some "s1")] ∧
    (∃ b, (exportOAuth2ClientsM envC8 ⟨true, true⟩).2 = .ok b) := by
  refine ⟨rfl, rfl, rfl, ?_, ?_⟩
  · rfl
  · exact ⟨_, rfl⟩

/-- C8 amended: the capability-absence signal (403 with the PingOne
message) is normalized to no results for the all-objects listing —
`readOAuth2Clients` returns the empty list, and `exportOAuth2Clients` over
such a listing succeeds with an empty bundle; the same signal on a script
read during client dependency export is swallowed, skipping that script;
any other listing failure, and any non-capability script-read failure,
propagates as an error. -/
theorem capability_absence_normalization (env : Env) :
    (∀ q, env.getClientsRes = .ok q →
      readOAuth2ClientsM env = ([Event.getClientsEv], .ok q)) ∧
    (∀ e, env.getClientsRes = .error e →
      (responseStatus e = some 403 ∧ responseMessage e = some capabilityMsg →
        readOAuth2ClientsM env = ([Event.getClientsEv], .ok [])) ∧
      (¬(responseStatus e = some 403 ∧ responseMessage e = some capabilityMsg) →
        readOAuth2ClientsM env =
          ([Event.getClientsEv],
            .error (.frodo ("Error reading " ++ realmStr ++ " oauth2 clients") [e])))) ∧
    (∀ e pv, env.readProviderRes = .ok pv → env.getClientsRes = .error e →
      responseStatus e = some 403 → responseMessage e = some capabilityMsg →
      ∀ o, exportOAuth2ClientsM env o =
        ([Event.getProviderEv, Event.getClientsEv], .ok createOAuth2ClientExportTemplate)) ∧
    (∀ o cid k v rest ed e, strEndsWith k "Script" = true → v ≠ "[Empty]" →
      alGet ed.script v = none → env.readScriptRes (some v) = .error e →
      (httpStatus e = some 403 ∧ httpMessage e = some capabilityMsg →
        exportOAuth2ClientDependenciesLoop env o cid ((k, v) :: rest) ed =
          (Event.readScriptEv (some v) ::
              (exportOAuth2ClientDependenciesLoop env o cid rest ed).1,
            (exportOAuth2ClientDependenciesLoop env o cid rest ed).2.1,
            (exportOAuth2ClientDependenciesLoop env o cid rest ed).2.2)) ∧
      (¬(httpStatus e = some 403 ∧ httpMessage e = some capabilityMsg) →
        exportOAuth2ClientDependenciesLoop env o cid ((k, v) :: rest) ed =
          ([Event.readScriptEv (some v)], ed,
            some (.frodo ("Error retrieving " ++ realmStr ++ " script " ++ v ++
              " referenced by " ++ k ++ " key in client " ++ cid) [e])))) := by
  refine ⟨?_, ?_, ?_, ?_⟩
  · intro q hq
    simp [readOAuth2ClientsM, hq]
  · intro e he
    constructor
    · intro hsig
      simp [readOAuth2ClientsM, he, if_pos hsig]
    · intro hsig
      simp [readOAuth2ClientsM, he, if_neg hsig]
  · intro e pv hpv he hst hmsg o
    have hread : readOAuth2ClientsM env = ([Event.getClientsEv], .ok []) := by
      simp [readOAuth2ClientsM, he, if_pos (And.intro hst hmsg)]
    simp [exportOAuth2ClientsM, hpv, hread, exportOAuth2ClientsLoop]
  · intro o cid k v rest ed e hk hv hed he
    constructor
    · intro hsig
      simp only [exportOAuth2ClientDependenciesLoop, if_pos hk, if_neg hv, hed,
        readScriptM, he, if_pos hsig, List.singleton_append]
    · intro hsig
      simp only [exportOAuth2ClientDependenciesLoop, if_pos hk, if_neg hv, hed,
        readScriptM, he, if_neg hsig]

def envC8cap : Env :=
  { envOk with getClientsRes := .error (.http 403 capabilityMsg none) }

theorem capability_absence_normalization_witness :
    readOAuth2ClientsM envC8cap = ([Event.getClientsEv], .ok []) ∧
    exportOAuth2ClientsM envC8cap ⟨true, true⟩ =
      ([Event.getProviderEv, Event.getClientsEv], .ok createOAuth2ClientExportTemplate) :=
  ⟨((capability_absence_normalization envC8cap).2.1 (.http 403 capabilityMsg none) rfl).1
      ⟨rfl, rfl⟩,
   (capability_absence_normalization envC8cap).2.2.1 (.http 403 capabilityMsg none)
      (.obj []) rfl rfl rfl rfl ⟨true, true⟩⟩

/-- C9: dependency discovery over `overrideOAuth2ClientConfig` inspects
only the map's own keys, one level deep: every script event produced by
the import and export dependency passes stems from an own key ending in
`Script` whose value is not the `[Empty]` sentinel (soundness); under
successful writes, the import pass writes exactly the suffixed,
non-sentinel references present in the bundle, silently passing over the
rest (completeness); under fresh, distinct references and successful
reads, the export pass reads exactly the suffixed, non-sentinel references
(completeness); a missing or non-object override field contributes
nothing. -/
theorem overrideConfig_script_discovery :
    (∀ (env : Env) (cd : ClientObj) (importData : OAuth2ClientExportInterface)
        (attrs : List (String × String)),
      alGet cd "overrideOAuth2ClientConfig" = some (.obj attrs) →
      ∀ ev ∈ (importOAuth2ClientDependenciesM env cd importData).1,
        ∃ k v sd, (k, v) ∈ attrs ∧ strEndsWith k "Script" = true ∧ v ≠ "[Empty]" ∧
          alGet importData.script v = some sd ∧
          ev = Event.putScriptEv (some v) (some sd)) ∧
    (∀ (env : Env) (cd : ClientObj) (importData : OAuth2ClientExportInterface)
        (attrs : List (String × String)),
      alGet cd "overrideOAuth2ClientConfig" = some (.obj attrs) →
      (∀ v sd, alGet importData.script v = some sd →
        env.putRes (Event.putScriptEv (some v) (some sd)) = none) →
      importOAuth2ClientDependenciesM env cd importData =
        (attrs.filterMap (fun kv =>
          if strEndsWith kv.1 "Script" = true ∧ kv.2 ≠ "[Empty]" then
            (alGet importData.script kv.2).map
              (fun sd => Event.putScriptEv (some kv.2) (some sd))
          else none), none)) ∧
    (∀ (env : Env) (o : OAuth2ClientExportOptions) (cd : ClientObj)
        (ed : OAuth2ClientExportInterface) (attrs : List (String × String)),
      alGet cd "overrideOAuth2ClientConfig" = some (.obj attrs) →
      ∀ ev ∈ (exportOAuth2ClientDependenciesM env o cd ed).1,
        ∃ k v, (k, v) ∈ attrs ∧ strEndsWith k "Script" = true ∧ v ≠ "[Empty]" ∧
          ev = Event.readScriptEv (some v)) ∧
    (∀ (env : Env) (o : OAuth2ClientExportOptions) (cd : ClientObj)
        (ed : OAuth2ClientExportInterface) (attrs : List (String × String)),
      alGet cd "overrideOAuth2ClientConfig" = some (.obj attrs) →
      (∀ v ∈ overrideScriptRefs attrs, alGet ed.script v = none) →
      (∀ v ∈ overrideScriptRefs attrs, ∃ sd, env.readScriptRes (some v) = .ok sd) →
      (overrideScriptRefs attrs).Nodup →
      (exportOAuth2ClientDependenciesM env o cd ed).1 =
        (overrideScriptRefs attrs).map (fun v => Event.readScriptEv (some v)) ∧
      (exportOAuth2ClientDependenciesM env o cd ed).2.2 = none) ∧
    (∀ (env : Env) (cd : ClientObj) (importData : OAuth2ClientExportInterface),
      alGet cd "overrideOAuth2ClientConfig" = none →
      importOAuth2ClientDependenciesM env cd importData = ([], none)) := by
  refine ⟨?_, ?_, ?_, ?_, ?_⟩
  · intro env cd importData attrs hcd ev hev
    simp only [importOAuth2ClientDependenciesM, hcd] at hev
    exact importDepsLoop_sound env importData attrs ev hev
  · intro env cd importData attrs hcd hok
    simp only [importOAuth2ClientDependenciesM, hcd]
    exact importDepsLoop_complete env importData hok attrs
  · intro env o cd ed attrs hcd ev hev
    simp only [exportOAuth2ClientDependenciesM, hcd] at hev
    exact exportDepsLoop_sound env o (jsGetStr cd "_id") attrs ed ev hev
  · intro env o cd ed attrs hcd habs hok hnd
    simp only [exportOAuth2ClientDependenciesM, hcd]
    exact exportDepsLoop_complete env o (jsGetStr cd "_id") attrs ed habs hok hnd
  · intro env cd importData hcd
    simp [importOAuth2ClientDependenciesM, hcd]


theorem overrideConfig_script_discovery_witness :
    importOAuth2ClientDependenciesM envOk c9Client c9Bundle =
      ([Event.putScriptEv (some "s1") (some c9Script)], none) := by
  rw [overrideConfig_script_discovery.2.1 envOk c9Client c9Bundle _ rfl
    (fun v sd _ => rfl)]
  rfl

theorem updateOAuth2Client_repair_witness :
    updateOAuth2ClientM envC7 "c1" c7Stripped =
      ([Event.putClientEv "c1" c7Stripped], c7Stripped,
        .error (.frodo ("Error updating " ++ realmStr ++ " oauth2 client " ++ "c1")
          [c7Retry])) ∧
    updateOAuth2ClientM envOk "c1" c7Client =
      ([Event.putClientEv "c1" c7Client], c7Client, .ok c7Client) :=
  ⟨(updateOAuth2Client_repair envC7 "c1" c7Stripped).2.1 c7Retry rfl
      (by intro h; exact absurd h.1 (by decide)),
   (updateOAuth2Client_repair envOk "c1" c7Client).1 rfl⟩

end Frodo
